import Mathlib

/-!
# Sudoku engine: solver, solution counter, puzzle reducers and verification driver

Shallow embedding of `src/utils/sudoku.js`, `src/workers/sudokuWorker.js` and
`src/workers/uniquenessWorker.js`.

A board is a JavaScript array of arrays of numbers; it is embedded as a list of
lists of naturals.  In-place mutation is embedded as explicit state passing:
every function that mutates its board returns the board it leaves behind.
Recursion is embedded with a fuel argument (one unit per nested call);
a result `none` means the fuel ran out.
-/

set_option linter.constructorNameAsVariable false

namespace Sudoku

/-! ## Boards -/

/-- A board: rows of cells, `0` meaning empty. -/
abbrev Grid := List (List Nat)

/-- Read `board[r][c]`. -/
def cell (board : Grid) (r c : Nat) : Nat :=
  (board.getD r []).getD c 0

/-- Assignment `board[r][c] = v`. -/
def setCell (board : Grid) (r c v : Nat) : Grid :=
  board.set r ((board.getD r []).set c v)

/-- Embedding of `copyBoard`: `b.map((r) => r.slice())`. -/
def copyBoard (b : Grid) : Grid :=
  b.map (fun r => r)

/-- The cell coordinates visited by `for r in 0..8, for c in 0..8`, in that order. -/
def allCells : List (Nat × Nat) :=
  (List.range 9).flatMap (fun r => (List.range 9).map (fun c => (r, c)))

/-- Embedding of `canPlace` (identical in the three source files): the first loop
inspects row `r` and column `c`, the second the 3x3 box containing `(r, c)`. -/
def canPlace (board : Grid) (r c n : Nat) : Bool :=
  (List.range 9).all (fun i => cell board r i != n && cell board i c != n) &&
  (List.range 3).all (fun i => (List.range 3).all (fun j =>
    cell board (r / 3 * 3 + i) (c / 3 * 3 + j) != n))

/-- The first cell, in row-major order, that holds `0`: the target of the nested
`for r` / `for c` scan that opens `solveBacktrack` and both `helper`s. -/
def firstEmpty (board : Grid) : Option (Nat × Nat) :=
  allCells.find? (fun p => cell board p.1 p.2 == 0)

/-- The candidate values of the loop `for (let n = 1; n <= 9; n++)`. -/
def candidates : List Nat := List.range' 1 9

/-! ## Exact solver -/

/-- The loop `for n = 1..9` of `solveBacktrack` at the empty cell `(r, c)`, where
`solve` is the recursive call. -/
def solveLoop (solve : Grid → Option (Bool × Grid)) (r c : Nat) :
    List Nat → Grid → Option (Bool × Grid)
  | [], board => some (false, board)
  | n :: ns, board =>
    if canPlace board r c n then
      match solve (setCell board r c n) with
      | none => none
      | some (true, board1) => some (true, board1)
      | some (false, board1) => solveLoop solve r c ns (setCell board1 r c 0)
    else solveLoop solve r c ns board

/-- Embedding of `solveBacktrack`: returns the result and the board as mutated. -/
def solveBacktrack : Nat → Grid → Option (Bool × Grid)
  | 0, _ => none
  | fuel + 1, board =>
    match firstEmpty board with
    | some (r, c) => solveLoop (solveBacktrack fuel) r c candidates board
    | none => some (true, board)

/-! ## Solution counter -/

/-- The loop `for n = 1..9` of the `helper` of `countSolutions`; the state is the
board `b` and the captured variable `count`. -/
def countLoop (helper : Grid × Nat → Option (Grid × Nat)) (r c : Nat) :
    List Nat → Grid × Nat → Option (Grid × Nat)
  | [], st => some st
  | n :: ns, (b, count) =>
    if canPlace b r c n then
      match helper (setCell b r c n, count) with
      | none => none
      | some (b1, count1) => countLoop helper r c ns (setCell b1 r c 0, count1)
    else countLoop helper r c ns (b, count)

/-- The inner function `helper` of `countSolutions`. -/
def countHelper (limit : Nat) : Nat → Grid × Nat → Option (Grid × Nat)
  | 0, _ => none
  | fuel + 1, (b, count) =>
    if count ≥ limit then some (b, count)
    else
      match firstEmpty b with
      | some (r, c) => countLoop (countHelper limit fuel) r c candidates (b, count)
      | none => some (b, count + 1)

/-- Number of empty cells of a board. -/
def zeros (board : Grid) : Nat :=
  allCells.countP (fun p => cell board p.1 p.2 == 0)

/-- Embedding of `countSolutions(board, limit)`; the recursion is given one unit
of fuel per empty cell, plus one. -/
def countSolutions (board : Grid) (limit : Nat) : Option Nat :=
  (countHelper limit (zeros board + 1) (copyBoard board, 0)).map (fun st => st.2)

/-! ## Board generation -/

/-- The destructuring swap `[a[i], a[j]] = [a[j], a[i]]`. -/
def swapAt {α : Type} (a : List α) (i j : Nat) : List α :=
  match a[i]?, a[j]? with
  | some x, some y => (a.set i y).set j x
  | _, _ => a

/-- The loop `for (let i = a.length - 1; i > 0; i--)` of `shuffleArray`; `rnd i` is
the value of `Math.floor(Math.random() * (i + 1))` drawn at index `i`. -/
def shuffleLoop {α : Type} (rnd : Nat → Nat) : Nat → List α → List α
  | 0, a => a
  | i + 1, a => shuffleLoop rnd i (swapAt a (i + 1) (rnd (i + 1)))

/-- Embedding of `shuffleArray` (Fisher-Yates) over an explicit source of draws. -/
def shuffleArray {α : Type} (rnd : Nat → Nat) (a : List α) : List α :=
  shuffleLoop rnd (a.length - 1) a

/-- The blank board `Array.from({ length: 9 }, () => Array(9).fill(0))`. -/
def blankBoard : Grid := List.replicate 9 (List.replicate 9 0)

/-- The offsets of the loop nest `for i in 0..2, for j in 0..2`. -/
def boxOffsets : List (Nat × Nat) :=
  (List.range 3).flatMap (fun i => (List.range 3).map (fun j => (i, j)))

/-- Seeding of diagonal box `k`: `board[k*3+i][k*3+j] = nums[i*3+j]`. -/
def seedBox (board : Grid) (k : Nat) (nums : List Nat) : Grid :=
  boxOffsets.foldl
    (fun b ij => setCell b (k * 3 + ij.1) (k * 3 + ij.2) (nums.getD (ij.1 * 3 + ij.2) 0)) board

/-- The board after the three diagonal boxes are seeded with `nums0`, `nums1`, `nums2`. -/
def seededBoard (nums0 nums1 nums2 : List Nat) : Grid :=
  seedBox (seedBox (seedBox blankBoard 0 nums0) 1 nums1) 2 nums2

/-- The body of `generateSolvedBoard` / `generateSudokuUnique` once the three shuffles
are drawn: the solver's verdict and the board that is returned. -/
def generateFromSeeds (nums0 nums1 nums2 : List Nat) : Option (Bool × Grid) :=
  let board := seededBoard nums0 nums1 nums2
  solveBacktrack (zeros board + 1) board

/-- Embedding of `generateSolvedBoard` (worker) and `generateSudokuUnique` (utils);
`rnd k` is the source of draws of the `k`-th shuffle.  The solver's verdict is
dropped, as in the source. -/
def generateSolvedBoard (rnd : Nat → Nat → Nat) : Option Grid :=
  (generateFromSeeds (shuffleArray (rnd 0) candidates) (shuffleArray (rnd 1) candidates)
    (shuffleArray (rnd 2) candidates)).map (fun res => res.2)

/-! ## Puzzle reducers -/

/-- The loop of the main-thread `puzzleFromSolutionWithUnique` (utils/sudoku.js) over
the cells that remain to visit. -/
def reduceLoop (toRemove : Int) : List (Nat × Nat) → Grid × Nat → Option (Grid × Nat)
  | [], st => some st
  | (r, c) :: rest, (board, removed) =>
    if (removed : Int) < toRemove then
      let saved := cell board r c
      let board1 := setCell board r c 0
      match countSolutions board1 2 with
      | none => none
      | some sols =>
        if sols ≠ 1 then reduceLoop toRemove rest (setCell board1 r c saved, removed)
        else reduceLoop toRemove rest (board1, removed + 1)
    else some (board, removed)

/-- Embedding of `puzzleFromSolutionWithUnique(solution, clues)` of utils/sudoku.js. -/
def puzzleFromSolutionWithUnique (rnd : Nat → Nat) (solution : Grid) (clues : Int) :
    Option Grid :=
  let board := copyBoard solution
  let cells := shuffleArray rnd allCells
  let toRemove : Int := 81 - clues
  (reduceLoop toRemove cells (board, 0)).map (fun st => st.1)

/-- The first loop of the worker's `puzzleFromSolutionWithUnique`; `clock k` is the
`k`-th reading of `Date.now()` and `tick` the number of readings taken so far. -/
def reduceLoopW (clock : Nat → Int) (start timeLimitMs : Int) (toRemove : Nat) :
    List (Nat × Nat) → Nat → Grid × Nat → Option (Grid × Nat)
  | [], _, st => some st
  | (r, c) :: rest, tick, (board, removed) =>
    if removed < toRemove then
      if clock tick - start > timeLimitMs then some (board, removed)
      else
        let saved := cell board r c
        let board1 := setCell board r c 0
        match countSolutions board1 2 with
        | none => none
        | some sols =>
          if sols ≠ 1 then
            reduceLoopW clock start timeLimitMs toRemove rest (tick + 1)
              (setCell board1 r c saved, removed)
          else
            reduceLoopW clock start timeLimitMs toRemove rest (tick + 1) (board1, removed + 1)
    else some (board, removed)

/-- The blind-removal loop of the worker's `puzzleFromSolutionWithUnique`. -/
def blindLoop (toRemove : Nat) : List (Nat × Nat) → Grid × Nat → Grid × Nat
  | [], st => st
  | (r, c) :: rest, (board, removed) =>
    if removed < toRemove then
      if cell board r c ≠ 0 then blindLoop toRemove rest (setCell board r c 0, removed + 1)
      else blindLoop toRemove rest (board, removed)
    else (board, removed)

/-- The removal quota `Math.max(0, 81 - (clues || 30))` of the worker. -/
def toRemoveW (clues : Int) : Nat :=
  (max 0 (81 - (if clues = 0 then 30 else clues))).toNat

/-- Embedding of the worker's `puzzleFromSolutionWithUnique(solution, clues, timeLimitMs)`. -/
def puzzleFromSolutionWithUniqueW (clock : Nat → Int) (rnd : Nat → Nat) (solution : Grid)
    (clues : Int) (timeLimitMs : Int) : Option Grid :=
  let start := clock 0
  let board := copyBoard solution
  let cells := shuffleArray rnd allCells
  let toRemove := toRemoveW clues
  match reduceLoopW clock start timeLimitMs toRemove cells 1 (board, 0) with
  | none => none
  | some (board1, removed) =>
    if removed < toRemove then some (blindLoop toRemove cells (board1, removed)).1
    else some board1

/-! ## Verification driver -/

/-- Events posted by the verification worker. -/
inductive VEvent where
  | progress (attempts count : Nat) (elapsedMs : Int)
  | done (unique : Bool) (count attempts : Nat) (elapsedMs : Int)
  deriving DecidableEq, Repr

/-- The mutable state of the verify handler: the board `b`, the captured variables
`count`, `attempts`, `lastProgressTs`, the number of clock readings taken and the
events posted so far (oldest first). -/
structure VState where
  b : Grid
  count : Nat
  attempts : Nat
  lastProgressTs : Int
  tick : Nat
  events : List VEvent
  deriving DecidableEq, Repr

/-- The block `const now = Date.now(); if (now - lastProgressTs > progressInterval)
{ postMessage(progress); lastProgressTs = now; }`. -/
def reportProgress (clock : Nat → Int) (start progressInterval : Int) (st : VState) : VState :=
  let now := clock st.tick
  if now - st.lastProgressTs > progressInterval then
    { st with tick := st.tick + 1, lastProgressTs := now,
              events := st.events ++ [VEvent.progress st.attempts st.count (now - start)] }
  else { st with tick := st.tick + 1 }

/-- The loop `for n = 1..9` of the verify handler's `helper` at the empty cell `(r0, c0)`. -/
def verifyLoop (clock : Nat → Int) (start progressInterval : Int) (limit : Nat)
    (helper : VState → Option VState) (r0 c0 : Nat) : List Nat → VState → Option VState
  | [], st => some st
  | n :: ns, st =>
    if canPlace st.b r0 c0 n then
      let st1 := { st with b := setCell st.b r0 c0 n, attempts := st.attempts + 1 }
      let st2 := reportProgress clock start progressInterval st1
      match helper st2 with
      | none => none
      | some st3 =>
        let st4 := { st3 with b := setCell st3.b r0 c0 0 }
        if st4.count ≥ limit then some st4
        else verifyLoop clock start progressInterval limit helper r0 c0 ns st4
    else verifyLoop clock start progressInterval limit helper r0 c0 ns st

/-- The inner function `helper` of the verify handler. -/
def verifyHelper (clock : Nat → Int) (start progressInterval : Int) (limit : Nat) :
    Nat → VState → Option VState
  | 0, _ => none
  | fuel + 1, st =>
    if st.count ≥ limit then some st
    else
      match firstEmpty st.b with
      | none => some (reportProgress clock start progressInterval { st with count := st.count + 1 })
      | some (r0, c0) =>
        verifyLoop clock start progressInterval limit
          (verifyHelper clock start progressInterval limit fuel) r0 c0 candidates st

/-- A message of type `"verify"`; a field that is absent is `none`. -/
structure VerifyMsg where
  board : Grid
  limit : Option Nat
  progressIntervalMs : Option Int

/-- The default `x || d` on a number that may be absent: `0` and absent give `d`. -/
def orDefault {α : Type} [Zero α] [DecidableEq α] (x : Option α) (d : α) : α :=
  match x with
  | some v => if v = 0 then d else v
  | none => d

/-- Embedding of the verify branch of the message handler of uniquenessWorker.js:
the list of events it posts. -/
def verify (clock : Nat → Int) (msg : VerifyMsg) : Option (List VEvent) :=
  let board := copyBoard msg.board
  let limit := orDefault msg.limit 2
  let start := clock 0
  let progressInterval := orDefault msg.progressIntervalMs 300
  let lastProgressTs := clock 1
  let st0 : VState := { b := board, count := 0, attempts := 0, lastProgressTs := lastProgressTs,
                        tick := 2, events := [] }
  match verifyHelper clock start progressInterval limit (zeros board + 1) st0 with
  | none => none
  | some st =>
    some (st.events ++ [VEvent.done (decide (st.count = 1)) st.count st.attempts
      (clock st.tick - start)])

/-! ## Specification-level notions -/

/-- A board has nine rows of nine cells. -/
def Is9x9 (g : Grid) : Prop :=
  g.length = 9 ∧ ∀ row ∈ g, row.length = 9

instance (g : Grid) : Decidable (Is9x9 g) := by unfold Is9x9; infer_instance

/-- Every cell holds a value in `0..9`. -/
def InRange (g : Grid) : Prop :=
  ∀ r < 9, ∀ c < 9, cell g r c ≤ 9

instance (g : Grid) : Decidable (InRange g) := by unfold InRange; infer_instance

/-- Cells `(r, c)` and `(r', c')` share a row, a column or a 3x3 box. -/
def sameUnit (r c r' c' : Nat) : Prop :=
  r = r' ∨ c = c' ∨ (r / 3 = r' / 3 ∧ c / 3 = c' / 3)

instance (r c r' c' : Nat) : Decidable (sameUnit r c r' c') := by unfold sameUnit; infer_instance

/-- No two distinct cells of a common row, column or box hold the same non-zero value,
for a board read through `f`. -/
def NoClash (f : Nat → Nat → Nat) : Prop :=
  ∀ r < 9, ∀ c < 9, ∀ r' < 9, ∀ c' < 9,
    (r, c) ≠ (r', c') → sameUnit r c r' c' → f r c ≠ 0 → f r c ≠ f r' c'

set_option synthInstance.maxSize 1000 in
set_option synthInstance.maxHeartbeats 200000 in
instance (f : Nat → Nat → Nat) : Decidable (NoClash f) := by unfold NoClash; infer_instance

/-- The Grid invariant of the data model. -/
def GridInv (g : Grid) : Prop := NoClash (cell g)

instance (g : Grid) : Decidable (GridInv g) := by unfold GridInv; infer_instance

/-- The cells of row `r`. -/
def rowCells (r : Nat) : List (Nat × Nat) := (List.range 9).map (fun c => (r, c))

/-- The cells of column `c`. -/
def colCells (c : Nat) : List (Nat × Nat) := (List.range 9).map (fun r => (r, c))

/-- The cells of box `k`, boxes being numbered `0..8` in row-major order. -/
def boxCells (k : Nat) : List (Nat × Nat) :=
  boxOffsets.map (fun ij => (k / 3 * 3 + ij.1, k % 3 * 3 + ij.2))

/-- The 27 units: rows, columns and boxes. -/
def units : List (List (Nat × Nat)) :=
  (List.range 9).map rowCells ++ (List.range 9).map colCells ++ (List.range 9).map boxCells

/-- Every row, column and box contains each of 1-9 exactly once, for a board read
through `f`. -/
def EachOnce (f : Nat → Nat → Nat) : Prop :=
  ∀ u ∈ units, ∀ d ∈ candidates, (u.map (fun p => f p.1 p.2)).count d = 1

instance (f : Nat → Nat → Nat) : Decidable (EachOnce f) := by unfold EachOnce; infer_instance

/-- A full grid, as a total assignment of a value in `0..9` to each of the 81 cells. -/
abbrev Full := Fin 9 → Fin 9 → Fin 10

/-- Read a full grid at natural coordinates (`0` outside the board). -/
def Full.read (s : Full) (r c : Nat) : Nat :=
  if h : r < 9 ∧ c < 9 then (s ⟨r, h.1⟩ ⟨c, h.2⟩).val else 0

/-- The full grid `s` is a valid completion of `g`: it agrees with `g` on every non-zero
cell of `g` and has each of 1-9 exactly once in every row, column and box. -/
def IsCompletion (g : Grid) (s : Full) : Prop :=
  (∀ r < 9, ∀ c < 9, cell g r c ≠ 0 → s.read r c = cell g r c) ∧ EachOnce s.read

instance (g : Grid) (s : Full) : Decidable (IsCompletion g s) := by
  unfold IsCompletion; infer_instance

/-- The valid completions of `g`. -/
@[irreducible] def completions (g : Grid) : Finset Full :=
  Finset.univ.filter (fun s => IsCompletion g s)

/-- The number of distinct valid completions of `g`. -/
def numCompletions (g : Grid) : Nat := (completions g).card

/-- A board is full and valid: every cell holds a value in `1..9` and no two distinct
cells of a common unit hold the same value. -/
def FullValid (f : Nat → Nat → Nat) : Prop :=
  (∀ r < 9, ∀ c < 9, 1 ≤ f r c ∧ f r c ≤ 9) ∧
  ∀ r < 9, ∀ c < 9, ∀ r' < 9, ∀ c' < 9,
    (r, c) ≠ (r', c') → sameUnit r c r' c' → f r c ≠ f r' c'

/-- The full grid that holds the cells of a board. -/
def toFull (g : Grid) : Full := fun r c => Fin.ofNat (cell g r.val c.val)

/-- Board `b` keeps every non-zero cell of `g`. -/
def Extends (g b : Grid) : Prop :=
  ∀ r < 9, ∀ c < 9, cell g r c ≠ 0 → cell b r c = cell g r c

instance (g b : Grid) : Decidable (Extends g b) := by unfold Extends; infer_instance

/-- What a run of the solver on a valid partial board `g` establishes about its result. -/
def SolveOutcome (g : Grid) (res : Bool × Grid) : Prop :=
  (res.1 = true → Is9x9 res.2 ∧ FullValid (cell res.2) ∧ Extends g res.2) ∧
  (res.1 = false → res.2 = g ∧ numCompletions g = 0)

/-- The event is a progress report. -/
def VEvent.isProgress : VEvent → Bool
  | VEvent.progress _ _ _ => true
  | VEvent.done _ _ _ _ => false

/-- The state `st'` reached from `st` holds board `g`, count `k` and attempts `a`, and
has posted progress reports only. -/
def VPost (st st' : VState) (g : Grid) (k a : Nat) : Prop :=
  st'.b = g ∧ st'.count = k ∧ st'.attempts = a ∧
  ∃ evs, st'.events = st.events ++ evs ∧ ∀ e ∈ evs, VEvent.isProgress e = true

/-- What the two helpers compute from board `g`, count `k` and attempts `a`: the counter
returns count `k'`, and the verify helper, whatever the clock, reaches count `k'` and
attempts `a'` on the restored board. -/
def Refines (limit : Nat) (count : Grid × Nat → Option (Grid × Nat))
    (run : (Nat → Int) → Int → Int → VState → Option VState) (g : Grid) (k a k' a' : Nat) :
    Prop :=
  count (g, k) = some (g, k') ∧ k ≤ k' ∧ (limit ≤ k → k' = k) ∧
  ∀ (clock : Nat → Int) (start pi : Int) (st : VState),
    st.b = g → st.count = k → st.attempts = a →
    ∃ st', run clock start pi st = some st' ∧ VPost st st' g k' a'

/-- The fixture solution with cell (8,7) overwritten by 9 and cell (8,8) emptied: no
value can be placed at (8,8). -/
def deadEndPuzzle : Grid :=
  [[5,3,4,6,7,8,9,1,2],[6,7,2,1,9,5,3,4,8],[1,9,8,3,4,2,5,6,7],
   [8,5,9,7,6,1,4,2,3],[4,2,6,8,5,3,7,9,1],[7,1,3,9,2,4,8,5,6],
   [9,6,1,5,3,7,2,8,4],[2,8,7,4,1,9,6,3,5],[3,4,5,2,8,6,1,9,0]]

/-! ## Win detection -/

/-- The scan `const seen = new Set(); ... if (seen.has(v)) return false; seen.add(v)` of
`isSolved` over the values of one row, column or box: true when no value repeats.
`seen` holds the values met so far. -/
def noRepeat : List Nat → List Nat → Bool
  | _, [] => true
  | seen, v :: vs => if seen.contains v then false else noRepeat (v :: seen) vs

/-- Embedding of `isSolved` of utils/sudoku.js: no empty cell, then no repeat in any
row, any column, any box (`br`, `bc` stepping by 3). -/
def isSolved (board : Grid) : Bool :=
  allCells.all (fun p => cell board p.1 p.2 != 0) &&
  (List.range 9).all (fun r => noRepeat [] ((List.range 9).map (fun c => cell board r c))) &&
  (List.range 9).all (fun c => noRepeat [] ((List.range 9).map (fun r => cell board r c))) &&
  (List.range 3).all (fun a => (List.range 3).all (fun b =>
    noRepeat [] (boxOffsets.map (fun ij => cell board (a * 3 + ij.1) (b * 3 + ij.2)))))

/-! ## Generation worker -/

/-- Events posted by the generation worker. -/
inductive GEvent where
  | status (status : String)
  | done (solution puzzle : Grid)
  | error (error : String)
  deriving DecidableEq, Repr

/-- The data of a message received by the generation worker: its `type` when present,
and `clues` when it is a number. -/
structure GenMsg where
  type : Option String
  clues : Option Int

/-- Embedding of the message handler of sudokuWorker.js: the list of events it posts.
`none` as message stands for a falsy `ev.data`; `clues` defaults to 30.  The body of the `try` block reads and
writes cells of 9x9 boards it has built itself, at coordinates below 9, so no statement
of it throws and the `catch` branch posts nothing. -/
def onMessage (clock : Nat → Int) (rnd : Nat → Nat → Nat) (msg : Option GenMsg) :
    Option (List GEvent) :=
  match msg with
  | none => some []
  | some m =>
    if m.type = none ∨ m.type = some "" then some []
    else if m.type = some "generate" then
      let clues : Int := m.clues.getD 30
      (generateSolvedBoard rnd).bind (fun solution =>
        (puzzleFromSolutionWithUniqueW clock (rnd 3) solution clues 1200).map (fun puzzle =>
          [GEvent.status "started", GEvent.done solution puzzle]))
    else some []

/-- The event ends a request: `done` or `error`. -/
def GEvent.isTerminal : GEvent → Bool
  | GEvent.status _ => false
  | GEvent.done _ _ => true
  | GEvent.error _ => true

/-! ## Further specification-level notions -/

/-- Every cell of `puzzle` is empty or holds the value of the same cell of `solution`. -/
def ZeroOrSame (puzzle solution : Grid) : Prop :=
  ∀ r < 9, ∀ c < 9, cell puzzle r c = 0 ∨ cell puzzle r c = cell solution r c

/-- The board obtained by filling the empty cells of `puzzle` from `solution`. -/
def fillFrom (puzzle solution : Grid) : Grid :=
  (List.range 9).map (fun r => (List.range 9).map (fun c =>
    if cell puzzle r c = 0 then cell solution r c else cell puzzle r c))

/-- The board read through `f` comes strictly before the one read through `f'` in the
lexicographic order of their cells taken in row-major order. -/
def LexLt (f f' : Nat → Nat → Nat) : Prop :=
  ∃ k < 81, (∀ j < k, f (j / 9) (j % 9) = f' (j / 9) (j % 9)) ∧
    f (k / 9) (k % 9) < f' (k / 9) (k % 9)

/-- Board `b` is, cell by cell in row-major order, at or before every valid completion
of `g`. -/
def LexMin (g b : Grid) : Prop :=
  ∀ s : Full, IsCompletion g s →
    (∀ r < 9, ∀ c < 9, cell b r c = s.read r c) ∨ LexLt (cell b) s.read

/-- Boolean form of `Extends`. -/
def extendsB (g b : Grid) : Bool :=
  allCells.all (fun p => cell g p.1 p.2 == 0 || cell b p.1 p.2 == cell g p.1 p.2)

/-- Every cell of the board holds a value in `0..9`, as a Boolean. -/
def inRangeB (g : Grid) : Bool :=
  allCells.all (fun p => decide (cell g p.1 p.2 ≤ 9))

/-- A decision of the first loop of the worker's reducer at a cell: `none` when the
removal is kept, `some t` when it is undone, `t` being a solved board other than the
solution that completes the board with the cell emptied. -/
abbrev Decision := (Nat × Nat) × Option Grid

/-- Replay of the first loop of the worker's reducer along a list of decisions.  A kept
removal must leave every clue of the board `minimal` in place; an undone removal must come
with a second solved board.  The replay fails (`none`) when a decision is not justified. -/
def replay (solution minimal : Grid) : List Decision → Grid × Nat → Option (Grid × Nat)
  | [], st => some st
  | ((r, c), none) :: rest, (board, removed) =>
    if extendsB minimal (setCell board r c 0) then
      replay solution minimal rest (setCell board r c 0, removed + 1)
    else none
  | ((r, c), some t) :: rest, (board, removed) =>
    if decide (Is9x9 t) && inRangeB t && isSolved t && extendsB (setCell board r c 0) t &&
        (cell t r c != cell solution r c) then
      replay solution minimal rest (board, removed)
    else none

/-- The fixture solution of the specification. -/
def fixture : Grid :=
  [[5,3,4,6,7,8,9,1,2],[6,7,2,1,9,5,3,4,8],[1,9,8,3,4,2,5,6,7],
   [8,5,9,7,6,1,4,2,3],[4,2,6,8,5,3,7,9,1],[7,1,3,9,2,4,8,5,6],
   [9,6,1,5,3,7,2,8,4],[2,8,7,4,1,9,6,3,5],[3,4,5,2,8,6,1,7,9]]

/-- The fixture solution with cells (0,0), (0,1) and (3,3) emptied. -/
def fixturePuzzle : Grid :=
  [[0,0,4,6,7,8,9,1,2],[6,7,2,1,9,5,3,4,8],[1,9,8,3,4,2,5,6,7],
   [8,5,9,0,6,1,4,2,3],[4,2,6,8,5,3,7,9,1],[7,1,3,9,2,4,8,5,6],
   [9,6,1,5,3,7,2,8,4],[2,8,7,4,1,9,6,3,5],[3,4,5,2,8,6,1,7,9]]

/-- The fixture solution with cell (0,0) overwritten by 3, which row 0 then holds twice. -/
def clashFixture : Grid :=
  [[3,3,4,6,7,8,9,1,2],[6,7,2,1,9,5,3,4,8],[1,9,8,3,4,2,5,6,7],
   [8,5,9,7,6,1,4,2,3],[4,2,6,8,5,3,7,9,1],[7,1,3,9,2,4,8,5,6],
   [9,6,1,5,3,7,2,8,4],[2,8,7,4,1,9,6,3,5],[3,4,5,2,8,6,1,7,9]]

instance (puzzle solution : Grid) : Decidable (ZeroOrSame puzzle solution) := by
  unfold ZeroOrSame; infer_instance

/-- The draws that make `shuffleArray` put the 81 cells in the order of `reduceDecisions`. -/
def reduceDraws : List Nat :=
  [0,1,0,0,2,5,4,1,0,9,9,11,9,13,13,10,9,16,18,18,18,19,21,21,19,23,23,27,27,29,29,30,28,27,31,29,36,37,36,36,37,39,41,38,40,29,35,31,27,34,30,32,28,33,20,22,26,19,24,23,25,21,18,10,16,17,12,11,15,13,14,9,1,4,8,6,5,2,3,7,0]

/-- The fixture solution after the first loop of the worker's reducer has visited the 81
cells in the order of `reduceDecisions`: 55 removals are kept, 26 clues remain. -/
def reducedFixture : Grid :=
  [[5,0,4,6,0,0,0,1,0],[6,0,0,0,9,0,3,0,0],[1,0,0,3,0,2,0,6,0],[8,0,0,0,0,1,4,2,0],[0,2,6,0,0,3,7,0,0],[7,0,0,9,0,0,0,0,0],[0,0,0,5,0,7,2,8,0],[0,8,0,0,0,0,0,0,0],[0,0,0,0,0,0,0,0,0]]

/-- The board `reducedFixture` with its first 2 clues, in the order of `reduceDecisions`,
emptied by the blind-removal loop: 24 clues remain. -/
def blindFixture : Grid :=
  [[5,0,4,6,0,0,0,1,0],[6,0,0,0,9,0,3,0,0],[1,0,0,3,0,2,0,6,0],[8,0,0,0,0,1,4,2,0],[0,2,6,0,0,3,7,0,0],[7,0,0,9,0,0,0,0,0],[0,0,0,5,0,7,0,8,0],[0,0,0,0,0,0,0,0,0],[0,0,0,0,0,0,0,0,0]]

/-- A second valid completion of `blindFixture`, other than the fixture solution. -/
def blindFixtureOther : Grid :=
  [[5,3,4,6,7,8,9,1,2],[6,7,2,1,9,5,3,4,8],[1,9,8,3,4,2,5,6,7],[8,5,9,7,6,1,4,2,3],[4,2,6,8,5,3,7,9,1],[7,1,3,9,2,4,8,5,6],[9,6,1,5,3,7,2,8,4],[3,4,5,2,8,6,1,7,9],[2,8,7,4,1,9,6,3,5]]

/-- The decisions of the first loop of the worker's reducer on the fixture solution, for
the cell order drawn by `reduceDraws`. -/
def reduceDecisions : List Decision :=
  [(( 8, 3), none),
   (( 8, 7), none),
   (( 8, 6), none),
   (( 8, 2), none),
   (( 8, 5), none),
   (( 8, 4), none),
   (( 8, 1), none),
   (( 8, 0), none),
   (( 8, 8), none),
   (( 7, 5), none),
   (( 7, 3), none),
   (( 7, 4), none),
   (( 7, 2), none),
   (( 7, 7), none),
   (( 7, 6), none),
   (( 7, 0), none),
   (( 7, 8), none),
   (( 7, 1), some [[5,3,4,6,7,8,9,1,2],[6,7,2,1,9,5,3,4,8],[1,9,8,3,4,2,5,6,7],[8,5,9,7,6,1,4,2,3],[4,2,6,8,5,3,7,9,1],[7,1,3,9,2,4,8,5,6],[9,6,1,5,3,7,2,8,4],[3,4,5,2,8,6,1,7,9],[2,8,7,4,1,9,6,3,5]]),
   (( 6, 1), none),
   (( 6, 0), none),
   (( 6, 8), none),
   (( 6, 4), none),
   (( 6, 6), some [[5,3,4,6,7,8,9,1,2],[6,7,2,1,9,5,3,4,8],[1,9,8,3,4,2,5,6,7],[8,5,9,7,6,1,4,2,3],[4,2,6,8,5,3,7,9,1],[7,1,3,9,2,4,8,5,6],[2,4,1,5,3,7,6,8,9],[9,8,7,4,1,6,2,3,5],[3,6,5,2,8,9,1,7,4]]),
   (( 6, 7), some [[5,3,4,6,7,8,9,1,2],[6,7,2,1,9,5,3,4,8],[1,9,8,3,4,2,5,6,7],[8,5,9,7,6,1,4,2,3],[4,2,6,8,5,3,7,9,1],[7,1,3,9,2,4,8,5,6],[9,6,1,5,8,7,2,3,4],[2,8,5,4,3,6,1,7,9],[3,4,7,2,1,9,6,8,5]]),
   (( 6, 3), some [[5,3,4,6,7,8,9,1,2],[6,7,2,1,9,5,3,4,8],[1,9,8,3,4,2,5,6,7],[8,5,9,7,6,1,4,2,3],[4,2,6,8,5,3,7,9,1],[7,1,3,9,2,4,8,5,6],[9,6,1,4,3,7,2,8,5],[2,8,7,5,1,9,6,3,4],[3,4,5,2,8,6,1,7,9]]),
   (( 6, 2), none),
   (( 6, 5), some [[5,3,4,6,7,8,9,1,2],[6,7,2,1,9,5,3,4,8],[1,9,8,3,4,2,5,6,7],[8,5,9,7,6,1,4,2,3],[4,2,6,8,5,3,7,9,1],[7,1,3,9,2,4,8,5,6],[3,4,7,5,1,6,2,8,9],[2,8,1,4,3,9,6,7,5],[9,6,5,2,8,7,1,3,4]]),
   (( 5, 6), none),
   (( 5, 8), none),
   (( 5, 4), none),
   (( 5, 1), none),
   (( 5, 5), none),
   (( 5, 7), none),
   (( 5, 3), some [[5,3,4,6,7,8,9,1,2],[6,7,2,1,9,5,3,4,8],[1,9,8,3,4,2,5,6,7],[8,5,9,7,6,1,4,2,3],[4,2,6,8,5,3,7,9,1],[7,1,3,4,2,9,8,5,6],[9,6,1,5,3,7,2,8,4],[2,8,7,9,1,4,6,3,5],[3,4,5,2,8,6,1,7,9]]),
   (( 5, 2), none),
   (( 5, 0), some [[5,3,4,6,7,8,9,1,2],[6,7,2,1,9,5,3,4,8],[1,9,8,3,4,2,5,6,7],[8,5,9,7,6,1,4,2,3],[4,2,6,8,5,3,7,9,1],[3,1,7,9,2,4,8,5,6],[9,6,1,5,3,7,2,8,4],[2,8,3,4,1,9,6,7,5],[7,4,5,2,8,6,1,3,9]]),
   (( 4, 7), none),
   (( 4, 8), none),
   (( 4, 6), some [[5,3,4,6,7,8,9,1,2],[6,7,2,1,9,5,3,4,8],[1,9,8,3,4,2,5,6,7],[8,5,9,7,6,1,4,2,3],[4,2,6,8,5,3,1,7,9],[7,1,3,9,2,4,8,5,6],[9,6,1,5,3,7,2,8,4],[2,8,7,4,1,9,6,3,5],[3,4,5,2,8,6,7,9,1]]),
   (( 4, 0), none),
   (( 4, 1), some [[5,3,4,6,7,8,9,1,2],[6,7,2,1,9,5,3,4,8],[1,9,8,3,4,2,5,6,7],[8,5,9,7,6,1,4,2,3],[2,4,6,8,5,3,7,9,1],[7,1,3,9,2,4,8,5,6],[4,6,1,5,3,7,2,8,9],[3,8,5,2,1,9,6,7,4],[9,2,7,4,8,6,1,3,5]]),
   (( 4, 3), none),
   (( 4, 5), some [[5,3,4,6,7,8,9,1,2],[6,7,2,1,9,5,3,4,8],[1,9,8,3,4,2,5,6,7],[8,5,9,7,6,1,4,2,3],[3,2,6,8,5,4,7,9,1],[7,4,1,9,2,3,8,5,6],[4,6,3,5,1,7,2,8,9],[9,8,5,2,3,6,1,7,4],[2,1,7,4,8,9,6,3,5]]),
   (( 4, 2), some [[5,3,4,6,7,8,9,1,2],[6,7,2,1,9,5,3,4,8],[1,9,8,3,4,2,5,6,7],[8,5,9,7,6,1,4,2,3],[4,2,1,8,5,3,7,9,6],[7,6,3,9,2,4,8,5,1],[3,4,6,5,1,7,2,8,9],[9,8,5,2,3,6,1,7,4],[2,1,7,4,8,9,6,3,5]]),
   (( 4, 4), none),
   (( 3, 2), none),
   (( 3, 8), none),
   (( 3, 4), none),
   (( 3, 0), some [[5,3,4,6,7,8,9,1,2],[6,7,2,1,9,5,3,4,8],[1,9,8,3,4,2,5,6,7],[3,5,9,7,8,1,4,2,6],[8,2,6,4,5,3,7,9,1],[7,4,1,9,2,6,8,3,5],[4,1,3,5,6,7,2,8,9],[9,8,5,2,1,4,6,7,3],[2,6,7,8,3,9,1,5,4]]),
   (( 3, 7), some [[5,3,4,6,7,8,9,1,2],[6,7,2,1,9,5,3,4,8],[1,9,8,3,4,2,5,6,7],[8,5,3,7,2,1,4,9,6],[9,2,6,4,8,3,7,5,1],[7,4,1,9,5,6,8,2,3],[3,1,9,5,6,7,2,8,4],[4,8,7,2,1,9,6,3,5],[2,6,5,8,3,4,1,7,9]]),
   (( 3, 3), none),
   (( 3, 5), some [[5,3,4,6,7,8,9,1,2],[6,7,2,1,9,5,3,4,8],[1,9,8,3,4,2,5,6,7],[8,5,9,7,1,6,4,2,3],[4,2,6,8,5,3,7,9,1],[7,1,3,9,2,4,8,5,6],[3,4,1,5,6,7,2,8,9],[9,8,5,2,3,1,6,7,4],[2,6,7,4,8,9,1,3,5]]),
   (( 3, 1), none),
   (( 3, 6), some [[5,3,4,6,7,8,9,1,2],[6,7,2,1,9,5,3,4,8],[1,9,8,3,4,2,5,6,7],[8,4,3,7,5,1,6,2,9],[9,2,6,4,8,3,7,5,1],[7,1,5,9,2,6,8,3,4],[4,6,9,5,1,7,2,8,3],[3,8,1,2,6,9,4,7,5],[2,5,7,8,3,4,1,9,6]]),
   (( 2, 2), none),
   (( 2, 4), none),
   (( 2, 8), none),
   (( 2, 1), none),
   (( 2, 6), none),
   (( 2, 5), some [[5,3,4,6,7,8,9,1,2],[6,7,2,1,9,5,3,4,8],[1,9,8,3,2,4,5,6,7],[8,5,3,7,6,1,4,2,9],[9,2,6,4,8,3,7,5,1],[7,4,1,9,5,2,8,3,6],[3,6,9,5,1,7,2,8,4],[4,8,7,2,3,6,1,9,5],[2,1,5,8,4,9,6,7,3]]),
   (( 2, 7), some [[5,3,4,6,7,8,9,1,2],[6,7,2,1,9,5,3,4,8],[1,9,8,3,4,2,5,7,6],[8,5,9,7,6,1,4,2,3],[4,2,6,8,5,3,7,9,1],[7,1,3,9,2,4,8,6,5],[9,6,1,5,3,7,2,8,4],[2,8,5,4,1,9,6,3,7],[3,4,7,2,8,6,1,5,9]]),
   (( 2, 3), some [[5,3,4,6,7,8,9,1,2],[6,7,2,1,9,5,3,4,8],[1,9,8,4,3,2,5,6,7],[8,5,9,7,6,1,4,2,3],[4,2,6,8,5,3,7,9,1],[7,1,3,9,2,4,8,5,6],[3,6,1,5,4,7,2,8,9],[2,8,5,3,1,9,6,7,4],[9,4,7,2,8,6,1,3,5]]),
   (( 2, 0), some [[5,3,4,6,7,8,9,1,2],[6,7,2,1,9,5,3,4,8],[9,1,8,3,4,2,5,6,7],[8,9,3,7,5,1,4,2,6],[1,2,6,4,8,3,7,5,9],[7,4,5,9,2,6,8,3,1],[3,6,9,5,1,7,2,8,4],[4,8,1,2,3,9,6,7,5],[2,5,7,8,6,4,1,9,3]]),
   (( 1, 1), none),
   (( 1, 7), none),
   (( 1, 8), none),
   (( 1, 3), none),
   (( 1, 2), none),
   (( 1, 6), some [[5,3,4,6,7,8,9,1,2],[6,7,2,1,9,5,8,3,4],[1,9,8,3,4,2,5,6,7],[8,5,9,7,6,1,4,2,3],[4,2,6,8,5,3,7,9,1],[7,1,3,9,2,4,6,5,8],[9,4,1,5,3,7,2,8,6],[2,8,5,4,1,6,3,7,9],[3,6,7,2,8,9,1,4,5]]),
   (( 1, 4), some [[5,3,4,6,7,8,9,1,2],[6,9,2,4,1,5,3,7,8],[1,7,8,3,9,2,5,6,4],[8,5,9,7,6,1,4,2,3],[4,2,6,8,5,3,7,9,1],[7,1,3,9,2,4,8,5,6],[3,6,1,5,4,7,2,8,9],[2,8,5,1,3,9,6,4,7],[9,4,7,2,8,6,1,3,5]]),
   (( 1, 5), none),
   (( 1, 0), some [[5,3,4,6,7,8,9,1,2],[2,6,7,1,9,5,3,4,8],[1,9,8,3,4,2,5,6,7],[8,5,9,7,6,1,4,2,3],[4,2,6,8,5,3,7,9,1],[7,1,3,9,2,4,8,5,6],[6,4,1,5,3,7,2,8,9],[3,8,2,4,1,9,6,7,5],[9,7,5,2,8,6,1,3,4]]),
   (( 0, 1), none),
   (( 0, 4), none),
   (( 0, 8), none),
   (( 0, 6), none),
   (( 0, 5), none),
   (( 0, 2), some [[5,3,2,6,4,8,9,1,7],[6,7,8,1,9,5,3,4,2],[1,4,9,3,7,2,5,6,8],[8,9,3,7,6,1,4,2,5],[4,2,6,8,5,3,7,9,1],[7,1,5,9,2,4,8,3,6],[3,6,4,5,1,7,2,8,9],[9,8,7,2,3,6,1,5,4],[2,5,1,4,8,9,6,7,3]]),
   (( 0, 3), some [[5,3,4,7,6,8,9,1,2],[6,7,2,1,9,5,3,4,8],[1,9,8,3,4,2,5,6,7],[8,5,9,6,7,1,4,2,3],[4,2,6,8,5,3,7,9,1],[7,1,3,9,2,4,8,5,6],[9,6,1,5,3,7,2,8,4],[2,8,7,4,1,9,6,3,5],[3,4,5,2,8,6,1,7,9]]),
   (( 0, 7), some [[5,3,4,6,1,8,9,7,2],[6,7,2,4,9,5,3,1,8],[1,9,8,3,7,2,5,6,4],[8,5,9,7,6,1,4,2,3],[4,2,6,8,5,3,7,9,1],[7,1,3,9,2,4,8,5,6],[3,6,1,5,4,7,2,8,9],[2,8,5,1,3,9,6,4,7],[9,4,7,2,8,6,1,3,5]]),
   (( 0, 0), some [[2,3,4,6,7,5,8,1,9],[6,7,5,1,9,8,3,4,2],[1,9,8,3,4,2,5,6,7],[8,5,9,7,6,1,4,2,3],[4,2,6,8,5,3,7,9,1],[7,1,3,9,2,4,6,5,8],[9,4,1,5,3,7,2,8,6],[3,8,2,4,1,6,9,7,5],[5,6,7,2,8,9,1,3,4]])]


/-! ## Basic facts about boards -/

theorem row_length (g : Grid) (h : Is9x9 g) (r : Nat) (hr : r < 9) : (g.getD r []).length = 9 := by
  have hlt : r < g.length := by rw [h.1]; exact hr
  rw [List.getD_eq_getElem _ _ hlt]
  exact h.2 _ (List.getElem_mem hlt)

theorem cell_setCell (g : Grid) (h : Is9x9 g) (r c v r' c' : Nat) (hr : r < 9) (hc : c < 9) :
    cell (setCell g r c v) r' c' = if r' = r ∧ c' = c then v else cell g r' c' := by
  have hlt : r < g.length := by rw [h.1]; exact hr
  have hrow := row_length g h r hr
  rw [List.getD_eq_getElem?_getD] at hrow
  unfold cell setCell
  simp only [List.getD_eq_getElem?_getD, List.getElem?_set]
  by_cases h1 : r = r'
  · subst h1
    simp only [hlt, if_true, Option.getD_some, List.getElem?_set, hrow, true_and]
    by_cases h2 : c = c'
    · subst h2; simp [hc]
    · have h3 : ¬ c' = c := fun e => h2 e.symm
      simp [h2, h3]
  · have h3 : ¬ r' = r := fun e => h1 e.symm
    simp [h1, h3]

theorem is9x9_setCell (g : Grid) (h : Is9x9 g) (r c v : Nat) : Is9x9 (setCell g r c v) := by
  unfold setCell
  refine ⟨by simp [h.1], ?_⟩
  intro row hrow
  by_cases hr : r < g.length
  · rcases List.mem_or_eq_of_mem_set hrow with h1 | h1
    · exact h.2 _ h1
    · subst h1
      rw [List.length_set, List.getD_eq_getElem _ _ hr]
      exact h.2 _ (List.getElem_mem hr)
  · rw [List.set_eq_of_length_le (by omega)] at hrow
    exact h.2 _ hrow

theorem grid_ext (g g' : Grid) (h : Is9x9 g) (h' : Is9x9 g')
    (heq : ∀ r < 9, ∀ c < 9, cell g r c = cell g' r c) : g = g' := by
  apply List.ext_getElem (by rw [h.1, h'.1])
  intro r hr hr'
  have hr9 : r < 9 := by rw [h.1] at hr; exact hr
  have l1 : g[r].length = 9 := h.2 _ (List.getElem_mem hr)
  have l2 : g'[r].length = 9 := h'.2 _ (List.getElem_mem hr')
  apply List.ext_getElem (by rw [l1, l2])
  intro c hc hc'
  have hc9 : c < 9 := by rw [l1] at hc; exact hc
  have := heq r hr9 c hc9
  unfold cell at this
  rw [List.getD_eq_getElem _ _ hr, List.getD_eq_getElem _ _ hr', List.getD_eq_getElem _ _ hc,
    List.getD_eq_getElem _ _ hc'] at this
  exact this

theorem copyBoard_eq (b : Grid) : copyBoard b = b := by
  unfold copyBoard; simp

theorem mem_allCells (p : Nat × Nat) : p ∈ allCells ↔ p.1 < 9 ∧ p.2 < 9 := by
  unfold allCells
  simp only [List.mem_flatMap, List.mem_range, List.mem_map]
  constructor
  · rintro ⟨r, hr, c, hc, rfl⟩; exact ⟨hr, hc⟩
  · rintro ⟨h1, h2⟩; exact ⟨p.1, h1, p.2, h2, rfl⟩

theorem firstEmpty_some (g : Grid) (r c : Nat) (h : firstEmpty g = some (r, c)) :
    r < 9 ∧ c < 9 ∧ cell g r c = 0 := by
  unfold firstEmpty at h
  have h1 := List.find?_some h
  have h2 := List.mem_of_find?_eq_some h
  rw [mem_allCells] at h2
  simp at h1
  exact ⟨h2.1, h2.2, h1⟩

theorem firstEmpty_none (g : Grid) (h : firstEmpty g = none) :
    ∀ r < 9, ∀ c < 9, cell g r c ≠ 0 := by
  unfold firstEmpty at h
  rw [List.find?_eq_none] at h
  intro r hr c hc
  have := h (r, c) ((mem_allCells _).2 ⟨hr, hc⟩)
  simpa using this

theorem canPlace_iff (g : Grid) (r c n : Nat) (hr : r < 9) (hc : c < 9) :
    canPlace g r c n = true ↔
      ∀ r' < 9, ∀ c' < 9, sameUnit r c r' c' → cell g r' c' ≠ n := by
  unfold canPlace sameUnit
  simp only [Bool.and_eq_true, List.all_eq_true, List.mem_range, bne_iff_ne, ne_eq]
  constructor
  · rintro ⟨h1, h2⟩ r' hr' c' hc' hu
    rcases hu with h | h | ⟨h3, h4⟩
    · subst h; exact (h1 c' hc').1
    · subst h; exact (h1 r' hr').2
    · have e1 : r' = r / 3 * 3 + r' % 3 := by omega
      have e2 : c' = c / 3 * 3 + c' % 3 := by omega
      have := h2 (r' % 3) (by omega) (c' % 3) (by omega)
      rw [← e1, ← e2] at this
      exact this
  · intro h
    refine ⟨fun i hi => ⟨h r hr i hi (Or.inl rfl), h i hi c hc (Or.inr (Or.inl rfl))⟩, ?_⟩
    intro i hi j hj
    exact h _ (by omega) _ (by omega) (Or.inr (Or.inr ⟨by omega, by omega⟩))

theorem countP_lt_of_imp {α : Type} (P Q : α → Bool) (l : List α)
    (himp : ∀ x ∈ l, Q x = true → P x = true) (hex : ∃ x ∈ l, P x = true ∧ Q x = false) :
    l.countP Q < l.countP P := by
  induction l with
  | nil => obtain ⟨x, hx, _⟩ := hex; simp at hx
  | cons a l ih =>
    have hle : l.countP Q ≤ l.countP P := by
      apply List.countP_mono_left
      intro x hx hq; exact himp x (List.mem_cons_of_mem _ hx) hq
    obtain ⟨x, hx, hp, hq⟩ := hex
    rcases List.mem_cons.1 hx with rfl | hx'
    · simp [List.countP_cons, hp, hq]; omega
    · have := ih (fun y hy => himp y (List.mem_cons_of_mem _ hy)) ⟨x, hx', hp, hq⟩
      have ha := himp a (List.mem_cons_self _ _)
      simp only [List.countP_cons]
      by_cases hqa : Q a = true
      · simp [hqa, ha hqa]; omega
      · simp [hqa]; split <;> omega

theorem zeros_setCell_lt (g : Grid) (h : Is9x9 g) (r c n : Nat) (hr : r < 9) (hc : c < 9)
    (h0 : cell g r c = 0) (hn : n ≠ 0) : zeros (setCell g r c n) < zeros g := by
  unfold zeros
  apply countP_lt_of_imp
  · intro p _ hq
    rw [cell_setCell g h r c n _ _ hr hc] at hq
    by_cases hp : p.1 = r ∧ p.2 = c
    · rw [hp.1, hp.2, h0]; simp
    · rw [if_neg hp] at hq; exact hq
  · refine ⟨(r, c), (mem_allCells _).2 ⟨hr, hc⟩, by simp [h0], ?_⟩
    rw [cell_setCell g h r c n _ _ hr hc]
    simp [hn]

theorem setCell_restore (g : Grid) (h : Is9x9 g) (r c n : Nat) (hr : r < 9) (hc : c < 9) :
    setCell (setCell g r c n) r c (cell g r c) = g := by
  apply grid_ext _ _ (is9x9_setCell _ (is9x9_setCell _ h _ _ _) _ _ _) h
  intro r' hr' c' hc'
  rw [cell_setCell _ (is9x9_setCell _ h _ _ _) r c _ _ _ hr hc, cell_setCell g h r c n _ _ hr hc]
  by_cases hp : r' = r ∧ c' = c
  · rw [if_pos hp, hp.1, hp.2]
  · rw [if_neg hp, if_neg hp]

/-! ## Each digit exactly once, as a clash-free full board -/

theorem candidates_nodup : candidates.Nodup := by decide

theorem mem_candidates (n : Nat) : n ∈ candidates ↔ 1 ≤ n ∧ n ≤ 9 := by
  unfold candidates
  rw [List.mem_range'_1]; omega

theorem count_once_iff (vals : List Nat) (hlen : vals.length = 9) :
    (∀ d ∈ candidates, vals.count d = 1) ↔ vals.Nodup ∧ ∀ v ∈ vals, 1 ≤ v ∧ v ≤ 9 := by
  have hclen : candidates.length = 9 := by decide
  constructor
  · intro h
    have hsub : candidates ⊆ vals := by
      intro d hd
      have := h d hd
      exact List.count_pos_iff.1 (by omega)
    have hperm : candidates.Perm vals :=
      (List.subperm_of_subset candidates_nodup hsub).perm_of_length_le (by omega)
    refine ⟨hperm.nodup_iff.1 candidates_nodup, ?_⟩
    intro v hv
    exact (mem_candidates v).1 (hperm.mem_iff.2 hv)
  · rintro ⟨hnd, hr⟩ d hd
    have hsub : vals ⊆ candidates := fun v hv => (mem_candidates v).2 (hr v hv)
    have hperm : vals.Perm candidates :=
      (List.subperm_of_subset hnd hsub).perm_of_length_le (by omega)
    exact List.count_eq_one_of_mem hnd (hperm.mem_iff.2 hd)

theorem mem_rowCells (r : Nat) (p : Nat × Nat) : p ∈ rowCells r ↔ p.1 = r ∧ p.2 < 9 := by
  unfold rowCells
  simp only [List.mem_map, List.mem_range]
  constructor
  · rintro ⟨c, hc, rfl⟩; exact ⟨rfl, hc⟩
  · rintro ⟨h1, h2⟩; exact ⟨p.2, h2, by rw [← h1]⟩

theorem mem_colCells (c : Nat) (p : Nat × Nat) : p ∈ colCells c ↔ p.2 = c ∧ p.1 < 9 := by
  unfold colCells
  simp only [List.mem_map, List.mem_range]
  constructor
  · rintro ⟨r, hr, rfl⟩; exact ⟨rfl, hr⟩
  · rintro ⟨h1, h2⟩; exact ⟨p.1, h2, by rw [← h1]⟩

theorem mem_boxOffsets (p : Nat × Nat) : p ∈ boxOffsets ↔ p.1 < 3 ∧ p.2 < 3 := by
  unfold boxOffsets
  simp only [List.mem_flatMap, List.mem_range, List.mem_map]
  constructor
  · rintro ⟨r, hr, c, hc, rfl⟩; exact ⟨hr, hc⟩
  · rintro ⟨h1, h2⟩; exact ⟨p.1, h1, p.2, h2, rfl⟩

theorem mem_boxCells (k : Nat) (p : Nat × Nat) :
    p ∈ boxCells k ↔ p.1 / 3 = k / 3 ∧ p.2 / 3 = k % 3 := by
  unfold boxCells
  simp only [List.mem_map, mem_boxOffsets]
  constructor
  · rintro ⟨ij, ⟨hi, hj⟩, rfl⟩
    constructor <;> simp only <;> omega
  · rintro ⟨h1, h2⟩
    refine ⟨(p.1 % 3, p.2 % 3), ⟨by simp only; omega, by simp only; omega⟩, ?_⟩
    apply Prod.ext <;> simp only <;> omega

theorem units_shape : ∀ u ∈ units, u.Nodup ∧ u.length = 9 := by decide

theorem units_inRange (u : List (Nat × Nat)) (hu : u ∈ units) (p : Nat × Nat) (hp : p ∈ u) :
    p.1 < 9 ∧ p.2 < 9 := by
  unfold units at hu
  simp only [List.mem_append, List.mem_map, List.mem_range] at hu
  rcases hu with (⟨r, hr, rfl⟩ | ⟨c, hc, rfl⟩) | ⟨k, hk, rfl⟩
  · rw [mem_rowCells] at hp; omega
  · rw [mem_colCells] at hp; omega
  · rw [mem_boxCells] at hp; omega

theorem sameUnit_iff (r c r' c' : Nat) (hr : r < 9) (hc : c < 9) (hr' : r' < 9) (hc' : c' < 9) :
    sameUnit r c r' c' ↔ ∃ u ∈ units, (r, c) ∈ u ∧ (r', c') ∈ u := by
  unfold sameUnit units
  simp only [List.mem_append, List.mem_map, List.mem_range]
  constructor
  · rintro (h | h | ⟨h1, h2⟩)
    · exact ⟨rowCells r, Or.inl (Or.inl ⟨r, hr, rfl⟩), (mem_rowCells _ _).2 ⟨rfl, hc⟩,
        (mem_rowCells _ _).2 ⟨h.symm, hc'⟩⟩
    · exact ⟨colCells c, Or.inl (Or.inr ⟨c, hc, rfl⟩), (mem_colCells _ _).2 ⟨rfl, hr⟩,
        (mem_colCells _ _).2 ⟨h.symm, hr'⟩⟩
    · refine ⟨boxCells (r / 3 * 3 + c / 3), Or.inr ⟨_, by omega, rfl⟩, ?_, ?_⟩
      · rw [mem_boxCells]; simp only; omega
      · rw [mem_boxCells]; simp only; omega
  · rintro ⟨u, (⟨k, _, rfl⟩ | ⟨k, _, rfl⟩) | ⟨k, _, rfl⟩, h1, h2⟩
    · rw [mem_rowCells] at h1 h2; left; simp only at h1 h2; omega
    · rw [mem_colCells] at h1 h2; right; left; simp only at h1 h2; omega
    · rw [mem_boxCells] at h1 h2; right; right; simp only at h1 h2; omega

theorem eachOnce_iff (f : Nat → Nat → Nat) : EachOnce f ↔ FullValid f := by
  unfold EachOnce FullValid
  have key : ∀ u ∈ units, ((∀ d ∈ candidates, (u.map (fun p => f p.1 p.2)).count d = 1) ↔
      (u.map (fun p => f p.1 p.2)).Nodup ∧ ∀ v ∈ u.map (fun p => f p.1 p.2), 1 ≤ v ∧ v ≤ 9) := by
    intro u hu
    exact count_once_iff _ (by rw [List.length_map]; exact (units_shape u hu).2)
  constructor
  · intro h
    have h' := fun u hu => (key u hu).1 (h u hu)
    constructor
    · intro r hr c hc
      have hu : rowCells r ∈ units := by
        unfold units; simp only [List.mem_append, List.mem_map, List.mem_range]
        exact Or.inl (Or.inl ⟨r, hr, rfl⟩)
      exact (h' _ hu).2 (f r c) (List.mem_map.2 ⟨(r, c), (mem_rowCells _ _).2 ⟨rfl, hc⟩, rfl⟩)
    · intro r hr c hc r' hr' c' hc' hne hsame heq
      obtain ⟨u, hu, h1, h2⟩ := (sameUnit_iff r c r' c' hr hc hr' hc').1 hsame
      have hnd := (h' u hu).1
      exact hne (List.inj_on_of_nodup_map hnd h1 h2 heq)
  · rintro ⟨h1, h2⟩ u hu
    rw [key u hu]
    constructor
    · apply List.Nodup.map_on _ (units_shape u hu).1
      intro p hp q hq heq
      by_contra hne
      have hpr := units_inRange u hu p hp
      have hqr := units_inRange u hu q hq
      exact h2 p.1 hpr.1 p.2 hpr.2 q.1 hqr.1 q.2 hqr.2 hne
        ((sameUnit_iff _ _ _ _ hpr.1 hpr.2 hqr.1 hqr.2).2 ⟨u, hu, hp, hq⟩) heq
    · intro v hv
      obtain ⟨p, hp, rfl⟩ := List.mem_map.1 hv
      have hpr := units_inRange u hu p hp
      exact h1 p.1 hpr.1 p.2 hpr.2

/-! ## Completions and how they split at an empty cell -/

theorem sameUnit_symm (r c r' c' : Nat) (h : sameUnit r c r' c') : sameUnit r' c' r c := by
  unfold sameUnit at *; omega

theorem Full.read_of_lt (s : Full) (r c : Nat) (hr : r < 9) (hc : c < 9) :
    s.read r c = (s ⟨r, hr⟩ ⟨c, hc⟩).val := by
  unfold Full.read; rw [dif_pos ⟨hr, hc⟩]

theorem Full.ext_read (s t : Full) (h : ∀ r < 9, ∀ c < 9, s.read r c = t.read r c) : s = t := by
  funext r c
  apply Fin.ext
  have := h r.val r.isLt c.val c.isLt
  rw [Full.read_of_lt _ _ _ r.isLt c.isLt, Full.read_of_lt _ _ _ r.isLt c.isLt] at this
  exact this

theorem mem_completions (g : Grid) (s : Full) : s ∈ completions g ↔ IsCompletion g s := by
  unfold completions; simp

theorem completion_fullValid (g : Grid) (s : Full) (h : IsCompletion g s) : FullValid s.read :=
  (eachOnce_iff _).1 h.2

theorem isCompletion_setCell (g : Grid) (hg : Is9x9 g) (r c n : Nat) (hr : r < 9) (hc : c < 9)
    (h0 : cell g r c = 0) (hn : n ≠ 0) (s : Full) :
    IsCompletion (setCell g r c n) s ↔ IsCompletion g s ∧ s.read r c = n := by
  unfold IsCompletion
  constructor
  · rintro ⟨h1, h2⟩
    refine ⟨⟨?_, h2⟩, ?_⟩
    · intro r' hr' c' hc' hne
      have := h1 r' hr' c' hc'
      rw [cell_setCell g hg r c n r' c' hr hc] at this
      by_cases hp : r' = r ∧ c' = c
      · rw [hp.1, hp.2] at hne; exact absurd h0 hne
      · rw [if_neg hp] at this; exact this hne
    · have := h1 r hr c hc
      rw [cell_setCell g hg r c n r c hr hc, if_pos ⟨rfl, rfl⟩] at this
      exact this hn
  · rintro ⟨⟨h1, h2⟩, h3⟩
    refine ⟨?_, h2⟩
    intro r' hr' c' hc' hne
    rw [cell_setCell g hg r c n r' c' hr hc] at hne ⊢
    by_cases hp : r' = r ∧ c' = c
    · rw [if_pos hp, hp.1, hp.2]; exact h3
    · rw [if_neg hp] at hne ⊢; exact h1 r' hr' c' hc' hne

theorem completions_fiber (g : Grid) (hg : Is9x9 g) (r c n : Nat) (hr : r < 9) (hc : c < 9)
    (h0 : cell g r c = 0) (hn : n ≠ 0) :
    (completions g).filter (fun s => s.read r c = n) = completions (setCell g r c n) := by
  ext s
  rw [Finset.mem_filter, mem_completions, mem_completions,
    isCompletion_setCell g hg r c n hr hc h0 hn]

theorem numCompletions_split (g : Grid) (hg : Is9x9 g) (r c : Nat) (hr : r < 9) (hc : c < 9)
    (h0 : cell g r c = 0) :
    numCompletions g = (candidates.map (fun n => numCompletions (setCell g r c n))).sum := by
  unfold numCompletions
  rw [← List.sum_toFinset _ candidates_nodup]
  rw [Finset.card_eq_sum_card_fiberwise (f := fun s : Full => s.read r c) (t := candidates.toFinset)]
  · apply Finset.sum_congr rfl
    intro n hn
    rw [List.mem_toFinset, mem_candidates] at hn
    rw [completions_fiber g hg r c n hr hc h0 (by omega)]
  · intro s hs
    rw [mem_completions] at hs
    rw [List.mem_toFinset, mem_candidates]
    exact (completion_fullValid g s hs).1 r hr c hc

theorem numCompletions_of_not_canPlace (g : Grid) (hg : Is9x9 g) (r c n : Nat) (hr : r < 9)
    (hc : c < 9) (h0 : cell g r c = 0) (hn : n ≠ 0) (hcp : ¬ canPlace g r c n = true) :
    numCompletions (setCell g r c n) = 0 := by
  unfold numCompletions
  rw [Finset.card_eq_zero, Finset.eq_empty_iff_forall_not_mem]
  intro s hs
  rw [mem_completions, isCompletion_setCell g hg r c n hr hc h0 hn] at hs
  obtain ⟨hcomp, hat⟩ := hs
  rw [canPlace_iff g r c n hr hc] at hcp
  push_neg at hcp
  obtain ⟨r', hr', c', hc', hsame, heq⟩ := hcp
  have hne : (r, c) ≠ (r', c') := by
    intro e
    rw [Prod.mk.injEq] at e
    rw [← e.1, ← e.2, h0] at heq
    exact hn heq.symm
  have h1 := hcomp.1 r' hr' c' hc' (by rw [heq]; exact hn)
  have := (completion_fullValid g s hcomp).2 r hr c hc r' hr' c' hc' hne hsame
  exact this (by rw [hat, h1, heq])

theorem gridInv_setCell (g : Grid) (hg : Is9x9 g) (hinv : GridInv g) (r c n : Nat) (hr : r < 9)
    (hc : c < 9) (hcp : canPlace g r c n = true) : GridInv (setCell g r c n) := by
  rw [canPlace_iff g r c n hr hc] at hcp
  intro r1 hr1 c1 hc1 r2 hr2 c2 hc2 hne hsame hnz
  rw [cell_setCell g hg r c n _ _ hr hc] at hnz ⊢
  rw [cell_setCell g hg r c n _ _ hr hc]
  by_cases hp1 : r1 = r ∧ c1 = c
  · have hp2 : ¬ (r2 = r ∧ c2 = c) := by
      rintro ⟨e1, e2⟩; exact hne (by rw [hp1.1, hp1.2, e1, e2])
    rw [if_pos hp1, if_neg hp2]
    rw [hp1.1, hp1.2] at hsame
    exact fun e => hcp r2 hr2 c2 hc2 hsame e.symm
  · rw [if_neg hp1] at hnz ⊢
    by_cases hp2 : r2 = r ∧ c2 = c
    · rw [if_pos hp2]
      rw [hp2.1, hp2.2] at hsame
      exact hcp r1 hr1 c1 hc1 (sameUnit_symm _ _ _ _ hsame)
    · rw [if_neg hp2]
      exact hinv r1 hr1 c1 hc1 r2 hr2 c2 hc2 hne hsame hnz

theorem inRange_setCell (g : Grid) (hg : Is9x9 g) (hin : InRange g) (r c n : Nat) (hr : r < 9)
    (hc : c < 9) (hn : n ≤ 9) : InRange (setCell g r c n) := by
  intro r' hr' c' hc'
  rw [cell_setCell g hg r c n _ _ hr hc]
  split
  · exact hn
  · exact hin r' hr' c' hc'

theorem toFull_at (g : Grid) (hin : InRange g) (r c : Nat) (hr : r < 9) (hc : c < 9) :
    (toFull g).read r c = cell g r c := by
  rw [Full.read_of_lt _ _ _ hr hc]
  unfold toFull
  have := hin r hr c hc
  simp only [Fin.ofNat, Fin.val_mk]
  omega

theorem fullValid_of_full (g : Grid) (hin : InRange g) (hinv : GridInv g)
    (hfull : ∀ r < 9, ∀ c < 9, cell g r c ≠ 0) : FullValid (cell g) := by
  constructor
  · intro r hr c hc
    have := hin r hr c hc
    have := hfull r hr c hc
    omega
  · intro r hr c hc r' hr' c' hc' hne hsame
    exact hinv r hr c hc r' hr' c' hc' hne hsame (hfull r hr c hc)

theorem fullValid_congr (f f' : Nat → Nat → Nat) (h : ∀ r < 9, ∀ c < 9, f r c = f' r c)
    (hv : FullValid f) : FullValid f' := by
  constructor
  · intro r hr c hc; rw [← h r hr c hc]; exact hv.1 r hr c hc
  · intro r hr c hc r' hr' c' hc' hne hsame
    rw [← h r hr c hc, ← h r' hr' c' hc']
    exact hv.2 r hr c hc r' hr' c' hc' hne hsame

theorem isCompletion_toFull (g : Grid) (hin : InRange g) (hinv : GridInv g)
    (hfull : ∀ r < 9, ∀ c < 9, cell g r c ≠ 0) : IsCompletion g (toFull g) := by
  refine ⟨fun r hr c hc _ => toFull_at g hin r c hr hc, (eachOnce_iff _).2 ?_⟩
  exact fullValid_congr _ _ (fun r hr c hc => (toFull_at g hin r c hr hc).symm)
    (fullValid_of_full g hin hinv hfull)

theorem numCompletions_of_full (g : Grid) (hin : InRange g) (hinv : GridInv g)
    (hfull : ∀ r < 9, ∀ c < 9, cell g r c ≠ 0) : numCompletions g = 1 := by
  unfold numCompletions
  rw [Finset.card_eq_one]
  refine ⟨toFull g, ?_⟩
  ext s
  rw [mem_completions, Finset.mem_singleton]
  constructor
  · intro h
    apply Full.ext_read
    intro r hr c hc
    rw [toFull_at g hin r c hr hc]
    exact h.1 r hr c hc (hfull r hr c hc)
  · rintro rfl
    exact isCompletion_toFull g hin hinv hfull

/-! ## The solution counter counts completions -/

theorem countLoop_spec (limit : Nat) (helper : Grid × Nat → Option (Grid × Nat)) (g : Grid)
    (hg : Is9x9 g) (hin : InRange g) (hinv : GridInv g) (r c : Nat) (hr : r < 9) (hc : c < 9)
    (h0 : cell g r c = 0)
    (ih : ∀ g' k', Is9x9 g' → InRange g' → GridInv g' → zeros g' < zeros g → k' ≤ limit →
      helper (g', k') = some (g', min limit (k' + numCompletions g')))
    (ns : List Nat) (hns : ∀ n ∈ ns, 1 ≤ n ∧ n ≤ 9) (k : Nat) (hk : k ≤ limit) :
    countLoop helper r c ns (g, k) =
      some (g, min limit (k + (ns.map (fun n => numCompletions (setCell g r c n))).sum)) := by
  induction ns generalizing k with
  | nil => simp [countLoop, Nat.min_eq_right hk]
  | cons n ns ihns =>
    have hn := hns n (List.mem_cons_self _ _)
    have hns' : ∀ m ∈ ns, 1 ≤ m ∧ m ≤ 9 := fun m hm => hns m (List.mem_cons_of_mem _ hm)
    rw [countLoop]
    by_cases hcp : canPlace g r c n = true
    · rw [if_pos hcp]
      rw [ih (setCell g r c n) k (is9x9_setCell g hg r c n)
        (inRange_setCell g hg hin r c n hr hc hn.2) (gridInv_setCell g hg hinv r c n hr hc hcp)
        (zeros_setCell_lt g hg r c n hr hc h0 (by omega)) hk]
      simp only
      have hrest : setCell (setCell g r c n) r c 0 = g := by
        have := setCell_restore g hg r c n hr hc
        rw [h0] at this; exact this
      rw [hrest, ihns hns' _ (Nat.min_le_left _ _)]
      simp only [List.map_cons, List.sum_cons]
      congr 2
      omega
    · rw [if_neg hcp, ihns hns' k hk]
      simp only [List.map_cons, List.sum_cons]
      rw [numCompletions_of_not_canPlace g hg r c n hr hc h0 (by omega) hcp]
      congr 2
      omega

theorem countHelper_spec (limit : Nat) (fuel : Nat) :
    ∀ (g : Grid) (k : Nat), Is9x9 g → InRange g → GridInv g → zeros g < fuel → k ≤ limit →
      countHelper limit fuel (g, k) = some (g, min limit (k + numCompletions g)) := by
  induction fuel with
  | zero => intro g k _ _ _ hz; omega
  | succ fuel ih =>
    intro g k hg hin hinv hz hk
    rw [countHelper]
    by_cases hge : k ≥ limit
    · rw [if_pos hge]
      congr 2; omega
    · rw [if_neg hge]
      cases hfe : firstEmpty g with
      | none =>
        simp only
        rw [numCompletions_of_full g hin hinv (firstEmpty_none g hfe)]
        congr 2; omega
      | some p =>
        obtain ⟨r, c⟩ := p
        obtain ⟨hr, hc, h0⟩ := firstEmpty_some g r c hfe
        simp only
        rw [countLoop_spec limit _ g hg hin hinv r c hr hc h0 _ candidates
          (fun n hn => (mem_candidates n).1 hn) k hk, ← numCompletions_split g hg r c hr hc h0]
        intro g' k' hg' hin' hinv' hz' hk'
        exact ih g' k' hg' hin' hinv' (by omega) hk'

theorem countSolutions_spec (g : Grid) (limit : Nat) (hg : Is9x9 g) (hin : InRange g)
    (hinv : GridInv g) : countSolutions g limit = some (min limit (numCompletions g)) := by
  unfold countSolutions
  rw [copyBoard_eq, countHelper_spec limit _ g 0 hg hin hinv (Nat.lt_succ_self _) (Nat.zero_le _)]
  simp

/-! ## The exact solver -/

theorem extends_setCell (g b : Grid) (hg : Is9x9 g) (r c n : Nat) (hr : r < 9) (hc : c < 9)
    (h0 : cell g r c = 0) (h : Extends (setCell g r c n) b) : Extends g b := by
  intro r' hr' c' hc' hne
  have := h r' hr' c' hc'
  rw [cell_setCell g hg r c n _ _ hr hc] at this
  by_cases hp : r' = r ∧ c' = c
  · rw [hp.1, hp.2] at hne; exact absurd h0 hne
  · rw [if_neg hp] at this; exact this hne

theorem solveLoop_spec (solve : Grid → Option (Bool × Grid)) (g : Grid)
    (hg : Is9x9 g) (hin : InRange g) (hinv : GridInv g) (r c : Nat) (hr : r < 9) (hc : c < 9)
    (h0 : cell g r c = 0)
    (ih : ∀ g', Is9x9 g' → InRange g' → GridInv g' → zeros g' < zeros g →
      ∃ res, solve g' = some res ∧ SolveOutcome g' res)
    (ns : List Nat) (hns : ∀ n ∈ ns, 1 ≤ n ∧ n ≤ 9) :
    ∃ res, solveLoop solve r c ns g = some res ∧
      (res.1 = true → Is9x9 res.2 ∧ FullValid (cell res.2) ∧ Extends g res.2) ∧
      (res.1 = false → res.2 = g ∧ ∀ n ∈ ns, numCompletions (setCell g r c n) = 0) := by
  induction ns with
  | nil => exact ⟨(false, g), rfl, by simp, by simp⟩
  | cons n ns ihns =>
    have hn := hns n (List.mem_cons_self _ _)
    have hns' : ∀ m ∈ ns, 1 ≤ m ∧ m ≤ 9 := fun m hm => hns m (List.mem_cons_of_mem _ hm)
    obtain ⟨res, hres, htrue, hfalse⟩ := ihns hns'
    rw [solveLoop]
    by_cases hcp : canPlace g r c n = true
    · rw [if_pos hcp]
      obtain ⟨res1, hres1, ht1, hf1⟩ := ih (setCell g r c n) (is9x9_setCell g hg r c n)
        (inRange_setCell g hg hin r c n hr hc hn.2) (gridInv_setCell g hg hinv r c n hr hc hcp)
        (zeros_setCell_lt g hg r c n hr hc h0 (by omega))
      rw [hres1]
      obtain ⟨ok, b1⟩ := res1
      cases ok with
      | true =>
        obtain ⟨h9, hv, hext⟩ := ht1 rfl
        exact ⟨(true, b1), rfl, fun _ => ⟨h9, hv, extends_setCell g b1 hg r c n hr hc h0 hext⟩,
          by simp⟩
      | false =>
        obtain ⟨hb1, hzero⟩ := hf1 rfl
        simp only at hb1
        have hrest : setCell (setCell g r c n) r c 0 = g := by
          have := setCell_restore g hg r c n hr hc
          rw [h0] at this; exact this
        simp only
        rw [hb1, hrest]
        refine ⟨res, hres, htrue, fun hf => ⟨(hfalse hf).1, ?_⟩⟩
        intro m hm
        rcases List.mem_cons.1 hm with rfl | hm'
        · exact hzero
        · exact (hfalse hf).2 m hm'
    · rw [if_neg hcp]
      refine ⟨res, hres, htrue, fun hf => ⟨(hfalse hf).1, ?_⟩⟩
      intro m hm
      rcases List.mem_cons.1 hm with rfl | hm'
      · exact numCompletions_of_not_canPlace g hg r c m hr hc h0 (by omega) hcp
      · exact (hfalse hf).2 m hm'

theorem solveBacktrack_spec (fuel : Nat) :
    ∀ g : Grid, Is9x9 g → InRange g → GridInv g → zeros g < fuel →
      ∃ res, solveBacktrack fuel g = some res ∧ SolveOutcome g res := by
  induction fuel with
  | zero => intro g _ _ _ hz; omega
  | succ fuel ih =>
    intro g hg hin hinv hz
    rw [solveBacktrack]
    cases hfe : firstEmpty g with
    | none =>
      refine ⟨(true, g), rfl, fun _ => ⟨hg, fullValid_of_full g hin hinv (firstEmpty_none g hfe),
        fun _ _ _ _ _ => rfl⟩, by simp⟩
    | some p =>
      obtain ⟨r, c⟩ := p
      obtain ⟨hr, hc, h0⟩ := firstEmpty_some g r c hfe
      simp only
      obtain ⟨res, hres, htrue, hfalse⟩ := solveLoop_spec (solveBacktrack fuel) g hg hin hinv r c
        hr hc h0 (fun g' hg' hin' hinv' hz' => ih g' hg' hin' hinv' (by omega)) candidates
        (fun n hn => (mem_candidates n).1 hn)
      refine ⟨res, hres, htrue, fun hf => ⟨(hfalse hf).1, ?_⟩⟩
      rw [numCompletions_split g hg r c hr hc h0]
      apply List.sum_eq_zero
      intro x hx
      obtain ⟨n, hn, rfl⟩ := List.mem_map.1 hx
      exact (hfalse hf).2 n hn

theorem inRange_of_fullValid (b : Grid) (h : FullValid (cell b)) : InRange b :=
  fun r hr c hc => (h.1 r hr c hc).2

theorem isCompletion_of_outcome (g b : Grid) (hv : FullValid (cell b)) (hext : Extends g b) :
    IsCompletion g (toFull b) := by
  have hin := inRange_of_fullValid b hv
  refine ⟨?_, (eachOnce_iff _).2 (fullValid_congr _ _
    (fun r hr c hc => (toFull_at b hin r c hr hc).symm) hv)⟩
  intro r hr c hc hne
  rw [toFull_at b hin r c hr hc]
  exact hext r hr c hc hne

/-! ## The verification driver refines the solution counter -/

theorem vpost_refl (st : VState) : VPost st st st.b st.count st.attempts :=
  ⟨rfl, rfl, rfl, [], by simp, by simp⟩

theorem vpost_trans (st1 st2 st3 : VState) (g2 g3 : Grid) (k2 a2 k3 a3 : Nat)
    (h12 : VPost st1 st2 g2 k2 a2) (h23 : VPost st2 st3 g3 k3 a3) : VPost st1 st3 g3 k3 a3 := by
  obtain ⟨_, _, _, e1, he1, hp1⟩ := h12
  obtain ⟨hb, hk, ha, e2, he2, hp2⟩ := h23
  refine ⟨hb, hk, ha, e1 ++ e2, by rw [he2, he1, List.append_assoc], ?_⟩
  intro e he
  rcases List.mem_append.1 he with h | h
  · exact hp1 e h
  · exact hp2 e h

theorem vpost_reportProgress (clock : Nat → Int) (start pi : Int) (st : VState) :
    VPost st (reportProgress clock start pi st) st.b st.count st.attempts := by
  unfold reportProgress
  simp only
  split
  · exact ⟨rfl, rfl, rfl, _, rfl, by simp [VEvent.isProgress]⟩
  · exact ⟨rfl, rfl, rfl, [], by simp, by simp⟩

theorem zeros_pos (g : Grid) (hg : Is9x9 g) (r c : Nat) (hr : r < 9) (hc : c < 9)
    (h0 : cell g r c = 0) : 0 < zeros g := by
  have := zeros_setCell_lt g hg r c 1 hr hc h0 (by omega)
  omega

theorem setCell_clear (g : Grid) (hg : Is9x9 g) (r c n : Nat) (hr : r < 9) (hc : c < 9)
    (h0 : cell g r c = 0) : setCell (setCell g r c n) r c 0 = g := by
  have := setCell_restore g hg r c n hr hc
  rw [h0] at this; exact this

theorem countLoop_saturated (limit : Nat) (helper : Grid × Nat → Option (Grid × Nat))
    (hsat : ∀ g' k, limit ≤ k → helper (g', k) = some (g', k))
    (g : Grid) (hg : Is9x9 g) (r c : Nat) (hr : r < 9) (hc : c < 9) (h0 : cell g r c = 0)
    (k : Nat) (hk : limit ≤ k) (ns : List Nat) :
    countLoop helper r c ns (g, k) = some (g, k) := by
  induction ns with
  | nil => rfl
  | cons n ns ih =>
    rw [countLoop]
    split
    · rw [hsat _ _ hk]
      simp only
      rw [setCell_clear g hg r c n hr hc h0, ih]
    · exact ih

theorem countHelper_saturated (limit fuel : Nat) (g : Grid) (k : Nat) (hk : limit ≤ k) :
    countHelper limit (fuel + 1) (g, k) = some (g, k) := by
  rw [countHelper, if_pos hk]

theorem verifyLoop_refines (limit fuel : Nat) (g : Grid) (hg : Is9x9 g) (r c : Nat)
    (hr : r < 9) (hc : c < 9) (h0 : cell g r c = 0) (hfuel : 0 < fuel)
    (ih : ∀ g', Is9x9 g' → zeros g' < zeros g → ∀ k a, ∃ k' a',
      Refines limit (countHelper limit fuel)
        (fun clock start pi => verifyHelper clock start pi limit fuel) g' k a k' a')
    (ns : List Nat) (hns : ∀ n ∈ ns, 1 ≤ n ∧ n ≤ 9) :
    ∀ k a, k < limit → ∃ k' a',
      Refines limit (countLoop (countHelper limit fuel) r c ns)
        (fun clock start pi => verifyLoop clock start pi limit
          (verifyHelper clock start pi limit fuel) r c ns) g k a k' a' := by
  induction ns with
  | nil =>
    intro k a _
    exact ⟨k, a, rfl, le_refl _, fun _ => rfl, fun clock start pi st hb hk ha =>
      ⟨st, rfl, by rw [← hb, ← hk, ← ha]; exact vpost_refl st⟩⟩
  | cons n ns ihns =>
    intro k a hk
    have hn := hns n (List.mem_cons_self _ _)
    have hns' : ∀ m ∈ ns, 1 ≤ m ∧ m ≤ 9 := fun m hm => hns m (List.mem_cons_of_mem _ hm)
    by_cases hcp : canPlace g r c n = true
    · obtain ⟨k1, a1, hc1, hle1, _, hv1⟩ := ih (setCell g r c n) (is9x9_setCell g hg r c n)
        (zeros_setCell_lt g hg r c n hr hc h0 (by omega)) k (a + 1)
      beta_reduce at hv1
      by_cases hsat : limit ≤ k1
      · refine ⟨k1, a1, ?_, hle1, fun h => absurd h (by omega), ?_⟩
        · rw [countLoop, if_pos hcp, hc1]
          simp only
          rw [setCell_clear g hg r c n hr hc h0]
          obtain ⟨f, rfl⟩ : ∃ f, fuel = f + 1 := ⟨fuel - 1, by omega⟩
          exact countLoop_saturated limit _ (fun g' k' h => countHelper_saturated limit f g' k' h)
            g hg r c hr hc h0 k1 hsat ns
        · intro clock start pi st hb hkc ha
          beta_reduce
          obtain ⟨b, count, attempts, ts, tick, events⟩ := st
          simp only at hb hkc ha
          subst hb hkc ha
          rw [verifyLoop, if_pos hcp]
          simp only
          have hrp := vpost_reportProgress clock start pi
            ⟨setCell b r c n, count, attempts + 1, ts, tick, events⟩
          obtain ⟨hrb, hrk, hra, e1, he1, hq1⟩ := hrp
          obtain ⟨st3, hst3, hp3⟩ := hv1 clock start pi _ hrb hrk hra
          rw [hst3]
          simp only
          obtain ⟨hb3, hk3, ha3, e3, he3, hq3⟩ := hp3
          rw [if_pos (by rw [hk3]; exact hsat)]
          refine ⟨_, rfl, ?_⟩
          refine ⟨by simp only; rw [hb3, setCell_clear b hg r c n hr hc h0], hk3, ha3,
            e1 ++ e3, ?_, ?_⟩
          · simp only; rw [he3, he1, List.append_assoc]
          · intro e he
            rcases List.mem_append.1 he with h | h
            · exact hq1 e h
            · exact hq3 e h
      · obtain ⟨k2, a2, hc2, hle2, _, hv2⟩ := ihns hns' k1 a1 (by omega)
        beta_reduce at hv2
        refine ⟨k2, a2, ?_, by omega, fun h => absurd h (by omega), ?_⟩
        · rw [countLoop, if_pos hcp, hc1]
          simp only
          rw [setCell_clear g hg r c n hr hc h0]
          exact hc2
        · intro clock start pi st hb hkc ha
          beta_reduce
          obtain ⟨b, count, attempts, ts, tick, events⟩ := st
          simp only at hb hkc ha
          subst hb hkc ha
          rw [verifyLoop, if_pos hcp]
          simp only
          have hrp := vpost_reportProgress clock start pi
            ⟨setCell b r c n, count, attempts + 1, ts, tick, events⟩
          obtain ⟨hrb, hrk, hra, e1, he1, hq1⟩ := hrp
          obtain ⟨st3, hst3, hp3⟩ := hv1 clock start pi _ hrb hrk hra
          rw [hst3]
          simp only
          obtain ⟨hb3, hk3, ha3, e3, he3, hq3⟩ := hp3
          rw [if_neg (by rw [hk3]; exact hsat)]
          obtain ⟨st5, hst5, hp5⟩ := hv2 clock start pi { st3 with b := setCell st3.b r c 0 }
            (by simp only; rw [hb3, setCell_clear b hg r c n hr hc h0]) hk3 ha3
          refine ⟨st5, hst5, ?_⟩
          obtain ⟨hb5, hk5, ha5, e5, he5, hq5⟩ := hp5
          refine ⟨hb5, hk5, ha5, e1 ++ e3 ++ e5, ?_, ?_⟩
          · rw [he5]; simp only; rw [he3, he1]; simp only [List.append_assoc]
          · intro e he
            rcases List.mem_append.1 he with h | h
            · rcases List.mem_append.1 h with h | h
              · exact hq1 e h
              · exact hq3 e h
            · exact hq5 e h
    · obtain ⟨k2, a2, hc2, hle2, hs2, hv2⟩ := ihns hns' k a hk
      beta_reduce at hv2
      refine ⟨k2, a2, ?_, hle2, hs2, ?_⟩
      · rw [countLoop, if_neg hcp]; exact hc2
      · intro clock start pi st hb hkc ha
        beta_reduce
        have := hv2 clock start pi st hb hkc ha
        rw [verifyLoop, hb, if_neg hcp]
        exact this

theorem verifyHelper_refines (limit : Nat) (fuel : Nat) :
    ∀ g : Grid, Is9x9 g → zeros g < fuel → ∀ k a, ∃ k' a',
      Refines limit (countHelper limit fuel)
        (fun clock start pi => verifyHelper clock start pi limit fuel) g k a k' a' := by
  induction fuel with
  | zero => intro g _ hz; omega
  | succ fuel ih =>
    intro g hg hz k a
    by_cases hge : k ≥ limit
    · refine ⟨k, a, countHelper_saturated limit fuel g k hge, le_refl _, fun _ => rfl, ?_⟩
      intro clock start pi st hb hkc ha
      beta_reduce
      refine ⟨st, ?_, by rw [← hb, ← hkc, ← ha]; exact vpost_refl st⟩
      rw [verifyHelper, if_pos (by rw [hkc]; exact hge)]
    · cases hfe : firstEmpty g with
      | none =>
        refine ⟨k + 1, a, ?_, by omega, fun h => absurd h hge, ?_⟩
        · rw [countHelper, if_neg hge, hfe]
        · intro clock start pi st hb hkc ha
          beta_reduce
          obtain ⟨b, count, attempts, ts, tick, events⟩ := st
          simp only at hb hkc ha
          subst hb hkc ha
          rw [verifyHelper, if_neg hge]
          simp only
          rw [hfe]
          exact ⟨_, rfl, vpost_reportProgress clock start pi
            ⟨b, count + 1, attempts, ts, tick, events⟩⟩
      | some p =>
        obtain ⟨r, c⟩ := p
        obtain ⟨hr, hc, h0⟩ := firstEmpty_some g r c hfe
        have hpos := zeros_pos g hg r c hr hc h0
        obtain ⟨k', a', hc', hle', _, hv'⟩ := verifyLoop_refines limit fuel g hg r c hr hc h0
          (by omega) (fun g' hg' hz' => ih g' hg' (by omega)) candidates
          (fun n hn => (mem_candidates n).1 hn) k a (by omega)
        beta_reduce at hv'
        refine ⟨k', a', ?_, hle', fun h => absurd h hge, ?_⟩
        · rw [countHelper, if_neg hge, hfe]; exact hc'
        · intro clock start pi st hb hkc ha
          beta_reduce
          have := hv' clock start pi st hb hkc ha
          rw [verifyHelper, if_neg (by rw [hkc]; exact hge), hb, hfe]
          exact this

/-! ## Further facts used by the claims -/

theorem list_set_self {α : Type} (l : List α) (i : Nat) (h : i < l.length) :
    l.set i (l.get ⟨i, h⟩) = l := by
  apply List.ext_getElem?
  intro j
  rw [List.getElem?_set]
  split
  · rename_i hij
    subst hij
    simp [h]
  · rfl

theorem setCell_outside (g : Grid) (hg : Is9x9 g) (r c v : Nat) (h : ¬ (r < 9 ∧ c < 9)) :
    setCell g r c v = g := by
  unfold setCell
  by_cases hr : r < 9
  · have hlt : r < g.length := by rw [hg.1]; exact hr
    have hrow := row_length g hg r hr
    rw [List.set_eq_of_length_le (l := g.getD r []) (by omega), List.getD_eq_getElem _ _ hlt]
    exact list_set_self g r hlt
  · exact List.set_eq_of_length_le (by rw [hg.1]; omega)

theorem setCell_restore_any (g : Grid) (hg : Is9x9 g) (r c v : Nat) :
    setCell (setCell g r c v) r c (cell g r c) = g := by
  by_cases h : r < 9 ∧ c < 9
  · exact setCell_restore g hg r c v h.1 h.2
  · rw [setCell_outside g hg r c v h, setCell_outside g hg r c _ h]

theorem countSolutions_total (g : Grid) (limit : Nat) (hg : Is9x9 g) :
    ∃ k, countSolutions g limit = some k := by
  obtain ⟨k', _, hc, _⟩ := verifyHelper_refines limit (zeros g + 1) g hg (Nat.lt_succ_self _) 0 0
  exact ⟨k', by unfold countSolutions; rw [copyBoard_eq, hc]; rfl⟩

theorem firstEmpty_of_full (g : Grid) (hfull : ∀ r < 9, ∀ c < 9, cell g r c ≠ 0) :
    firstEmpty g = none := by
  unfold firstEmpty
  rw [List.find?_eq_none]
  intro p hp
  rw [mem_allCells] at hp
  simpa using hfull p.1 hp.1 p.2 hp.2

theorem countSolutions_of_full (g : Grid) (limit : Nat) (hl : 0 < limit)
    (hfull : ∀ r < 9, ∀ c < 9, cell g r c ≠ 0) : countSolutions g limit = some 1 := by
  unfold countSolutions
  rw [copyBoard_eq, countHelper, if_neg (by omega), firstEmpty_of_full g hfull]
  rfl

theorem reduceLoop_unique (toRemove : Int) (cells : List (Nat × Nat)) :
    ∀ st : Grid × Nat, Is9x9 st.1 → countSolutions st.1 2 = some 1 →
      ∃ st', reduceLoop toRemove cells st = some st' ∧ Is9x9 st'.1 ∧
        countSolutions st'.1 2 = some 1 := by
  induction cells with
  | nil => intro st h9 hu; exact ⟨st, rfl, h9, hu⟩
  | cons p rest ih =>
    rintro ⟨board, removed⟩ h9 hu
    obtain ⟨r, c⟩ := p
    simp only at h9 hu
    rw [reduceLoop]
    split
    · simp only
      obtain ⟨sols, hsols⟩ := countSolutions_total (setCell board r c 0) 2
        (is9x9_setCell board h9 r c 0)
      rw [hsols]
      simp only
      split
      · rw [setCell_restore_any board h9 r c 0]
        exact ih (board, removed) h9 hu
      · rename_i hne
        have h1 : sols = 1 := by simpa using hne
        exact ih (setCell board r c 0, removed + 1) (is9x9_setCell board h9 r c 0)
          (by rw [hsols, h1])
    · exact ⟨(board, removed), rfl, h9, hu⟩

theorem gridInv_of_completion (g : Grid) (s : Full) (h : IsCompletion g s) :
    InRange g ∧ GridInv g := by
  have hv := completion_fullValid g s h
  constructor
  · intro r hr c hc
    by_cases h0 : cell g r c = 0
    · omega
    · rw [← h.1 r hr c hc h0]; exact (hv.1 r hr c hc).2
  · intro r hr c hc r' hr' c' hc' hne hsame hnz heq
    have h1 := h.1 r hr c hc hnz
    have h2 := h.1 r' hr' c' hc' (by rw [← heq]; exact hnz)
    exact hv.2 r hr c hc r' hr' c' hc' hne hsame (by rw [h1, h2, heq])

theorem verify_done (g : Grid) (hg : Is9x9 g) (limit : Option Nat) :
    ∃ c a, countSolutions g (orDefault limit 2) = some c ∧
      ∀ (clock : Nat → Int) (pi : Option Int), ∃ evs elapsed,
        verify clock ⟨g, limit, pi⟩ = some (evs ++ [VEvent.done (decide (c = 1)) c a elapsed]) ∧
        ∀ e ∈ evs, VEvent.isProgress e = true := by
  obtain ⟨c, a, hc, _, _, hv⟩ :=
    verifyHelper_refines (orDefault limit 2) (zeros g + 1) g hg (Nat.lt_succ_self _) 0 0
  refine ⟨c, a, by unfold countSolutions; rw [copyBoard_eq, hc]; rfl, ?_⟩
  intro clock pi
  obtain ⟨st', hst', hb, hk, ha, evs, hev, hprog⟩ :=
    hv clock (clock 0) (orDefault pi 300) ⟨g, 0, 0, clock 1, 2, []⟩ rfl rfl rfl
  beta_reduce at hst'
  refine ⟨evs, clock st'.tick - clock 0, ?_, hprog⟩
  unfold verify
  simp only [copyBoard_eq]
  rw [hst']
  simp only
  rw [hev, hk, ha]
  rfl

theorem fixture_is9x9 : Is9x9 fixture := by decide

theorem fixture_eachOnce : EachOnce (cell fixture) := by decide

theorem fixture_fullValid : FullValid (cell fixture) := (eachOnce_iff _).1 fixture_eachOnce

theorem fixture_inRange : InRange fixture := inRange_of_fullValid _ fixture_fullValid

theorem fixture_gridInv : GridInv fixture :=
  fun r hr c hc r' hr' c' hc' hne hsame _ => fixture_fullValid.2 r hr c hc r' hr' c' hc' hne hsame

theorem numCompletions_of_clash (g : Grid) (h : ¬ GridInv g) : numCompletions g = 0 := by
  unfold numCompletions
  rw [Finset.card_eq_zero, Finset.eq_empty_iff_forall_not_mem]
  intro s hs
  exact h (gridInv_of_completion g s ((mem_completions g s).1 hs)).2

theorem exists_completion_of_pos (g : Grid) (h : 0 < numCompletions g) :
    ∃ s, IsCompletion g s := by
  unfold numCompletions at h
  obtain ⟨s, hs⟩ := Finset.card_pos.1 h
  exact ⟨s, (mem_completions g s).1 hs⟩

theorem numCompletions_pos (g : Grid) (s : Full) (h : IsCompletion g s) :
    0 < numCompletions g := by
  unfold numCompletions
  exact Finset.card_pos.2 ⟨s, (mem_completions g s).2 h⟩

theorem fixturePuzzle_is9x9 : Is9x9 fixturePuzzle := by decide

theorem fixturePuzzle_inRange : InRange fixturePuzzle := by decide

theorem fixturePuzzle_gridInv : GridInv fixturePuzzle := by decide

theorem clashFixture_not_gridInv : ¬ GridInv clashFixture := by decide

/-! ## The claims -/

/-- C1: on a 9x9 grid with entries in 0..9 whose filled cells satisfy the Grid invariant,
`countSolutions(grid, limit)` is the minimum of `limit` and the number of valid completions;
with limit 2 the result is 0, 1 or 2 as the grid has no, one or several completions. -/
theorem countSolutions_eq_min_completions (g : Grid) (limit : Nat) (hg : Is9x9 g)
    (hin : InRange g) (hinv : GridInv g) :
    countSolutions g limit = some (min limit (numCompletions g)) ∧
    (numCompletions g = 0 → countSolutions g 2 = some 0) ∧
    (numCompletions g = 1 → countSolutions g 2 = some 1) ∧
    (2 ≤ numCompletions g → countSolutions g 2 = some 2) := by
  refine ⟨countSolutions_spec g limit hg hin hinv, ?_, ?_, ?_⟩ <;> intro h <;>
    rw [countSolutions_spec g 2 hg hin hinv] <;> congr 1 <;> omega

/-- Witness of C1 on the fixture puzzle with limit 5. -/
theorem countSolutions_eq_min_completions_witness :
    Is9x9 fixturePuzzle ∧ InRange fixturePuzzle ∧ GridInv fixturePuzzle ∧
    countSolutions fixturePuzzle 5 = some (min 5 (numCompletions fixturePuzzle)) :=
  ⟨fixturePuzzle_is9x9, fixturePuzzle_inRange, fixturePuzzle_gridInv,
    (countSolutions_eq_min_completions fixturePuzzle 5 fixturePuzzle_is9x9 fixturePuzzle_inRange
      fixturePuzzle_gridInv).1⟩

/-- C2, as stated, fails: on a full 9x9 grid with entries in 1..9 whose first row holds
3 twice, the verify handler posts `unique = true` with `count = 1`, yet the grid has no
valid completion. -/
theorem verify_unique_on_clashing_grid :
    Is9x9 clashFixture ∧ InRange clashFixture ∧
    verify (fun k => (k : Int)) ⟨clashFixture, none, none⟩ = some [VEvent.done true 1 0 3] ∧
    numCompletions clashFixture = 0 :=
  ⟨by decide, by decide, by decide, numCompletions_of_clash _ clashFixture_not_gridInv⟩

/-- C2, amended: with the default limit 2, the verify handler ends with one `done` event;
when the filled cells of the grid satisfy the Grid invariant its `unique` flag is true
exactly when the grid has exactly one valid completion, and on any 9x9 grid with entries
in 0..9 that has two or more completions it carries `count = 2` and `unique = false`. -/
theorem verify_unique_iff_one_completion (g : Grid) (hg : Is9x9 g) (hin : InRange g)
    (clock : Nat → Int) (pi : Option Int) :
    ∃ u c a elapsed evs,
      verify clock ⟨g, none, pi⟩ = some (evs ++ [VEvent.done u c a elapsed]) ∧
      (∀ e ∈ evs, VEvent.isProgress e = true) ∧
      (GridInv g → (u = true ↔ numCompletions g = 1)) ∧
      (2 ≤ numCompletions g → c = 2 ∧ u = false) := by
  obtain ⟨c, a, hc, hv⟩ := verify_done g hg none
  obtain ⟨evs, elapsed, hver, hprog⟩ := hv clock pi
  have hdef : orDefault (none : Option Nat) 2 = 2 := rfl
  rw [hdef] at hc
  have key : GridInv g → c = min 2 (numCompletions g) := by
    intro hinv
    rw [countSolutions_spec g 2 hg hin hinv] at hc
    exact (Option.some.inj hc).symm
  refine ⟨decide (c = 1), c, a, elapsed, evs, hver, hprog, ?_, ?_⟩
  · intro hinv
    have := key hinv
    rw [decide_eq_true_iff]
    omega
  · intro h2
    obtain ⟨s, hs⟩ := exists_completion_of_pos g (by omega)
    have := key (gridInv_of_completion g s hs).2
    refine ⟨by omega, ?_⟩
    rw [decide_eq_false_iff_not]
    omega

/-- Witness of C2 (amended) on the fixture puzzle. -/
theorem verify_unique_iff_one_completion_witness :
    Is9x9 fixturePuzzle ∧ InRange fixturePuzzle ∧
    ∃ u c a elapsed evs,
      verify (fun k => (k : Int)) ⟨fixturePuzzle, none, some 300⟩ =
        some (evs ++ [VEvent.done u c a elapsed]) ∧
      (∀ e ∈ evs, VEvent.isProgress e = true) ∧
      (GridInv fixturePuzzle → (u = true ↔ numCompletions fixturePuzzle = 1)) ∧
      (2 ≤ numCompletions fixturePuzzle → c = 2 ∧ u = false) :=
  ⟨fixturePuzzle_is9x9, fixturePuzzle_inRange,
    verify_unique_iff_one_completion fixturePuzzle fixturePuzzle_is9x9 fixturePuzzle_inRange
      (fun k => (k : Int)) (some 300)⟩

/-- C3: for every 9x9 grid and every limit >= 1 there are a count `c`, the value of
`countSolutions(grid, limit)`, and a number of attempts `a` such that, whatever the
progress interval and the clock readings, the verify handler posts progress events
followed by one `done` event carrying `count = c`, `unique = (c == 1)` and
`attempts = a`. -/
theorem verify_done_carries_countSolutions (g : Grid) (limit : Nat) (hg : Is9x9 g)
    (hl : 1 ≤ limit) :
    ∃ c a, countSolutions g limit = some c ∧
      ∀ (clock : Nat → Int) (pi : Option Int), ∃ evs elapsed,
        verify clock ⟨g, some limit, pi⟩ =
          some (evs ++ [VEvent.done (decide (c = 1)) c a elapsed]) ∧
        ∀ e ∈ evs, VEvent.isProgress e = true := by
  have hdef : orDefault (some limit) 2 = limit := by
    unfold orDefault
    simp only
    rw [if_neg (by omega)]
  have := verify_done g hg (some limit)
  rw [hdef] at this
  exact this

/-- Witness of C3 on the fixture puzzle with limit 2. -/
theorem verify_done_carries_countSolutions_witness :
    Is9x9 fixturePuzzle ∧ 1 ≤ 2 ∧
    ∃ c a, countSolutions fixturePuzzle 2 = some c ∧
      ∀ (clock : Nat → Int) (pi : Option Int), ∃ evs elapsed,
        verify clock ⟨fixturePuzzle, some 2, pi⟩ =
          some (evs ++ [VEvent.done (decide (c = 1)) c a elapsed]) ∧
        ∀ e ∈ evs, VEvent.isProgress e = true :=
  ⟨fixturePuzzle_is9x9, by decide,
    verify_done_carries_countSolutions fixturePuzzle 2 fixturePuzzle_is9x9 (by decide)⟩

/-- C4: on a 9x9 grid with entries in 0..9 whose filled cells satisfy the Grid invariant,
`solveBacktrack` returns (given one unit of fuel per empty cell, plus one), and it returns
true if and only if the grid has a valid completion. -/
theorem solveBacktrack_true_iff_completion (g : Grid) (fuel : Nat) (hg : Is9x9 g)
    (hin : InRange g) (hinv : GridInv g) (hfuel : zeros g < fuel) :
    ∃ res, solveBacktrack fuel g = some res ∧ (res.1 = true ↔ ∃ s : Full, IsCompletion g s) := by
  obtain ⟨res, hres, htrue, hfalse⟩ := solveBacktrack_spec fuel g hg hin hinv hfuel
  refine ⟨res, hres, ?_, ?_⟩
  · intro h
    obtain ⟨_, hv, hext⟩ := htrue h
    exact ⟨toFull res.2, isCompletion_of_outcome g res.2 hv hext⟩
  · rintro ⟨s, hs⟩
    by_contra hne
    have hf : res.1 = false := by simpa using hne
    have := numCompletions_pos g s hs
    rw [(hfalse hf).2] at this
    omega

/-- Witness of C4 on the fixture puzzle. -/
theorem solveBacktrack_true_iff_completion_witness :
    Is9x9 fixturePuzzle ∧ InRange fixturePuzzle ∧ GridInv fixturePuzzle ∧
    zeros fixturePuzzle < 4 ∧
    ∃ res, solveBacktrack 4 fixturePuzzle = some res ∧
      (res.1 = true ↔ ∃ s : Full, IsCompletion fixturePuzzle s) :=
  ⟨fixturePuzzle_is9x9, fixturePuzzle_inRange, fixturePuzzle_gridInv, by decide,
    solveBacktrack_true_iff_completion fixturePuzzle 4 fixturePuzzle_is9x9 fixturePuzzle_inRange
      fixturePuzzle_gridInv (by decide)⟩

/-- C5: on a 9x9 grid whose filled cells satisfy the Grid invariant, `solveBacktrack`
returns, and when it returns true the mutated grid is 9x9, has no zero cell, holds each of
1-9 exactly once in every row, column and box, and keeps every non-zero cell of the input. -/
theorem solveBacktrack_true_is_solution (g : Grid) (fuel : Nat) (hg : Is9x9 g)
    (hin : InRange g) (hinv : GridInv g) (hfuel : zeros g < fuel) :
    ∃ res, solveBacktrack fuel g = some res ∧
      (res.1 = true → Is9x9 res.2 ∧ (∀ r < 9, ∀ c < 9, cell res.2 r c ≠ 0) ∧
        EachOnce (cell res.2) ∧ Extends g res.2) := by
  obtain ⟨res, hres, htrue, _⟩ := solveBacktrack_spec fuel g hg hin hinv hfuel
  refine ⟨res, hres, fun h => ?_⟩
  obtain ⟨h9, hv, hext⟩ := htrue h
  refine ⟨h9, ?_, (eachOnce_iff _).2 hv, hext⟩
  intro r hr c hc
  have := (hv.1 r hr c hc).1
  omega

/-- Witness of C5 on the fixture puzzle. -/
theorem solveBacktrack_true_is_solution_witness :
    Is9x9 fixturePuzzle ∧ InRange fixturePuzzle ∧ GridInv fixturePuzzle ∧
    zeros fixturePuzzle < 4 ∧
    ∃ res, solveBacktrack 4 fixturePuzzle = some res ∧
      (res.1 = true → Is9x9 res.2 ∧ (∀ r < 9, ∀ c < 9, cell res.2 r c ≠ 0) ∧
        EachOnce (cell res.2) ∧ Extends fixturePuzzle res.2) :=
  ⟨fixturePuzzle_is9x9, fixturePuzzle_inRange, fixturePuzzle_gridInv, by decide,
    solveBacktrack_true_is_solution fixturePuzzle 4 fixturePuzzle_is9x9 fixturePuzzle_inRange
      fixturePuzzle_gridInv (by decide)⟩

/-- C6, as stated, fails: on the fixture solution `canPlace(grid, 0, 2, 4)` is false
although no cell other than (0,2) in row 0, column 2 or the top-left box holds 4. -/
theorem canPlace_sees_own_cell :
    ¬ (canPlace fixture 0 2 4 = true ↔
        ∀ r' < 9, ∀ c' < 9, (r', c') ≠ (0, 2) → sameUnit 0 2 r' c' → cell fixture r' c' ≠ 4) := by
  decide

/-- C6, amended: `canPlace(grid, r, c, n)` is true if and only if no cell of row `r`,
column `c` or the box containing `(r, c)`, the cell `(r, c)` itself included, holds `n`. -/
theorem canPlace_true_iff_unit_free (g : Grid) (r c n : Nat) (hr : r < 9) (hc : c < 9) :
    canPlace g r c n = true ↔ ∀ r' < 9, ∀ c' < 9, sameUnit r c r' c' → cell g r' c' ≠ n :=
  canPlace_iff g r c n hr hc

/-- Witness of C6 (amended) on the fixture solution at cell (0,2) and value 4. -/
theorem canPlace_true_iff_unit_free_witness :
    0 < 9 ∧ 2 < 9 ∧ (canPlace fixture 0 2 4 = true ↔
      ∀ r' < 9, ∀ c' < 9, sameUnit 0 2 r' c' → cell fixture r' c' ≠ 4) :=
  ⟨by decide, by decide, canPlace_true_iff_unit_free fixture 0 2 4 (by decide) (by decide)⟩

/-- C7: if `n` is present anywhere in row `r`, in column `c` or in the box containing
`(r, c)`, then `canPlace(grid, r, c, n)` is false. -/
theorem canPlace_false_of_present (g : Grid) (r c n : Nat) (hr : r < 9) (hc : c < 9)
    (hpresent : ∃ r' < 9, ∃ c' < 9, sameUnit r c r' c' ∧ cell g r' c' = n) :
    canPlace g r c n = false := by
  obtain ⟨r', hr', c', hc', hsame, heq⟩ := hpresent
  rw [← Bool.not_eq_true, canPlace_iff g r c n hr hc]
  intro h
  exact h r' hr' c' hc' hsame heq

/-- Witness of C7: on the fixture solution, whose row 0 is 5,3,4,6,7,8,9,1,2,
`canPlace(grid, 0, 2, 4)` is false. -/
theorem canPlace_fixture_0_2_4 :
    0 < 9 ∧ 2 < 9 ∧ (∃ r' < 9, ∃ c' < 9, sameUnit 0 2 r' c' ∧ cell fixture r' c' = 4) ∧
    canPlace fixture 0 2 4 = false :=
  ⟨by decide, by decide, ⟨0, by decide, 2, by decide, by decide, by decide⟩,
    canPlace_false_of_present fixture 0 2 4 (by decide) (by decide)
      ⟨0, by decide, 2, by decide, by decide, by decide⟩⟩

/-- C10: for every valid full solution, every clue count and every source of shuffle
draws, the main-thread reducer of utils/sudoku.js returns a puzzle on which
`countSolutions(puzzle, 2)` is 1. -/
theorem puzzleFromSolutionWithUnique_unique (rnd : Nat → Nat) (solution : Grid) (clues : Int)
    (h9 : Is9x9 solution) (hvalid : EachOnce (cell solution)) :
    ∃ puzzle, puzzleFromSolutionWithUnique rnd solution clues = some puzzle ∧
      countSolutions puzzle 2 = some 1 := by
  have hv := (eachOnce_iff _).1 hvalid
  have hfull : ∀ r < 9, ∀ c < 9, cell solution r c ≠ 0 := by
    intro r hr c hc
    have := (hv.1 r hr c hc).1
    omega
  obtain ⟨st', hst', _, hu⟩ := reduceLoop_unique (81 - clues) (shuffleArray rnd allCells)
    (solution, 0) h9 (countSolutions_of_full solution 2 (by decide) hfull)
  refine ⟨st'.1, ?_, hu⟩
  unfold puzzleFromSolutionWithUnique
  simp only [copyBoard_eq]
  rw [hst']
  rfl

/-- Witness of C10 on the fixture solution with 30 clues and the draws `rnd i = 0`. -/
theorem puzzleFromSolutionWithUnique_unique_witness :
    Is9x9 fixture ∧ EachOnce (cell fixture) ∧
    ∃ puzzle, puzzleFromSolutionWithUnique (fun _ => 0) fixture 30 = some puzzle ∧
      countSolutions puzzle 2 = some 1 :=
  ⟨fixture_is9x9, fixture_eachOnce,
    puzzleFromSolutionWithUnique_unique (fun _ => 0) fixture 30 fixture_is9x9 fixture_eachOnce⟩

/-! ## The solver on arbitrary 9x9 boards -/

theorem solveLoop_total (solve : Grid → Option (Bool × Grid)) (g : Grid) (hg : Is9x9 g)
    (r c : Nat) (hr : r < 9) (hc : c < 9) (h0 : cell g r c = 0)
    (ih : ∀ g', Is9x9 g' → zeros g' < zeros g →
      ∃ res, solve g' = some res ∧ Is9x9 res.2 ∧ (res.1 = false → res.2 = g'))
    (ns : List Nat) (hns : ∀ n ∈ ns, 1 ≤ n ∧ n ≤ 9) :
    ∃ res, solveLoop solve r c ns g = some res ∧ Is9x9 res.2 ∧ (res.1 = false → res.2 = g) := by
  induction ns with
  | nil => exact ⟨(false, g), rfl, hg, fun _ => rfl⟩
  | cons n ns ihns =>
    have hn := hns n (List.mem_cons_self _ _)
    have hns' : ∀ m ∈ ns, 1 ≤ m ∧ m ≤ 9 := fun m hm => hns m (List.mem_cons_of_mem _ hm)
    rw [solveLoop]
    by_cases hcp : canPlace g r c n = true
    · rw [if_pos hcp]
      obtain ⟨res1, hres1, h91, hf1⟩ := ih (setCell g r c n) (is9x9_setCell g hg r c n)
        (zeros_setCell_lt g hg r c n hr hc h0 (by omega))
      rw [hres1]
      obtain ⟨ok, b1⟩ := res1
      cases ok with
      | true => exact ⟨(true, b1), rfl, h91, by simp⟩
      | false =>
        have hb1 : b1 = setCell g r c n := hf1 rfl
        simp only
        rw [hb1, setCell_clear g hg r c n hr hc h0]
        exact ihns hns'
    · rw [if_neg hcp]
      exact ihns hns'

theorem solveBacktrack_total (fuel : Nat) :
    ∀ g : Grid, Is9x9 g → zeros g < fuel →
      ∃ res, solveBacktrack fuel g = some res ∧ Is9x9 res.2 ∧ (res.1 = false → res.2 = g) := by
  induction fuel with
  | zero => intro g _ hz; omega
  | succ fuel ih =>
    intro g hg hz
    rw [solveBacktrack]
    cases hfe : firstEmpty g with
    | none => exact ⟨(true, g), rfl, hg, by simp⟩
    | some p =>
      obtain ⟨r, c⟩ := p
      obtain ⟨hr, hc, h0⟩ := firstEmpty_some g r c hfe
      simp only
      exact solveLoop_total (solveBacktrack fuel) g hg r c hr hc h0
        (fun g' hg' hz' => ih g' hg' (by omega)) candidates (fun n hn => (mem_candidates n).1 hn)

theorem zeros_le (g : Grid) : zeros g ≤ 81 := by
  unfold zeros
  have h : allCells.length = 81 := by decide
  rw [← h]
  exact List.countP_le_length _

theorem numCompletions_setCell_le (g : Grid) (hg : Is9x9 g) (r c n : Nat) (hr : r < 9)
    (hc : c < 9) (h0 : cell g r c = 0) (hn : n ≠ 0) :
    numCompletions (setCell g r c n) ≤ numCompletions g := by
  unfold numCompletions
  rw [← completions_fiber g hg r c n hr hc h0 hn]
  exact Finset.card_filter_le _ _

/-- C13: `countSolutions` is monotonic under added constraints: on a grid whose filled
cells satisfy the Grid invariant, setting an empty cell to a value it takes in at least
one valid completion never increases the count, whatever the limit. -/
theorem countSolutions_mono_fill (g : Grid) (limit r c n : Nat) (hg : Is9x9 g)
    (hin : InRange g) (hinv : GridInv g) (hr : r < 9) (hc : c < 9) (h0 : cell g r c = 0)
    (hsol : ∃ s : Full, IsCompletion g s ∧ s.read r c = n) :
    ∃ a b, countSolutions (setCell g r c n) limit = some a ∧ countSolutions g limit = some b ∧
      a ≤ b := by
  obtain ⟨s, hs, hat⟩ := hsol
  have hn : n ≠ 0 := by
    have := ((completion_fullValid g s hs).1 r hr c hc).1
    omega
  have hs' : IsCompletion (setCell g r c n) s :=
    (isCompletion_setCell g hg r c n hr hc h0 hn s).2 ⟨hs, hat⟩
  obtain ⟨hin', hinv'⟩ := gridInv_of_completion _ s hs'
  refine ⟨_, _, countSolutions_spec _ limit (is9x9_setCell g hg r c n) hin' hinv',
    countSolutions_spec g limit hg hin hinv, ?_⟩
  have := numCompletions_setCell_le g hg r c n hr hc h0 hn
  omega

/-- Witness of C13: the fixture puzzle, its empty cell (0,0) and the value 5 that the
fixture solution holds there, with limit 2. -/
theorem countSolutions_mono_fill_witness :
    Is9x9 fixturePuzzle ∧ InRange fixturePuzzle ∧ GridInv fixturePuzzle ∧
    cell fixturePuzzle 0 0 = 0 ∧
    (∃ s : Full, IsCompletion fixturePuzzle s ∧ s.read 0 0 = 5) ∧
    ∃ a b, countSolutions (setCell fixturePuzzle 0 0 5) 2 = some a ∧
      countSolutions fixturePuzzle 2 = some b ∧ a ≤ b :=
  have hsol : ∃ s : Full, IsCompletion fixturePuzzle s ∧ s.read 0 0 = 5 :=
    ⟨toFull fixture, isCompletion_of_outcome fixturePuzzle fixture fixture_fullValid (by decide),
      by rw [toFull_at fixture fixture_inRange 0 0 (by decide) (by decide)]; decide⟩
  ⟨fixturePuzzle_is9x9, fixturePuzzle_inRange, fixturePuzzle_gridInv, by decide, hsol,
    countSolutions_mono_fill fixturePuzzle 2 0 0 5 fixturePuzzle_is9x9 fixturePuzzle_inRange
      fixturePuzzle_gridInv (by decide) (by decide) (by decide) hsol⟩

/-- C15: on every 9x9 grid, valid or not, `solveBacktrack` returns (given one unit of
fuel per empty cell, plus one), and when it returns false the grid it leaves is equal to
the grid it was given. -/
theorem solveBacktrack_false_restores (g : Grid) (fuel : Nat) (hg : Is9x9 g)
    (hfuel : zeros g < fuel) :
    ∃ res, solveBacktrack fuel g = some res ∧ (res.1 = false → res.2 = g) := by
  obtain ⟨res, hres, _, hf⟩ := solveBacktrack_total fuel g hg hfuel
  exact ⟨res, hres, hf⟩

/-- Witness of C15 on a grid with one empty cell where no value can be placed. -/
theorem solveBacktrack_false_restores_witness :
    Is9x9 deadEndPuzzle ∧ zeros deadEndPuzzle < 2 ∧
    solveBacktrack 2 deadEndPuzzle = some (false, deadEndPuzzle) ∧
    ∃ res, solveBacktrack 2 deadEndPuzzle = some res ∧ (res.1 = false → res.2 = deadEndPuzzle) :=
  ⟨by decide, by decide, by decide,
    solveBacktrack_false_restores deadEndPuzzle 2 (by decide) (by decide)⟩

/-- C16: on every 9x9 grid, valid or not, a recursive call is made on a grid with
strictly fewer empty cells, the grid has at most 81 of them, and `solveBacktrack`, the
helper of `countSolutions` and the helper of the verify handler all return when given one
level of nesting per empty cell of the input on top of the initial call. -/
theorem recursion_depth_bounded (g : Grid) (hg : Is9x9 g) :
    zeros g ≤ 81 ∧
    (∀ r c n, firstEmpty g = some (r, c) → n ∈ candidates →
      zeros (setCell g r c n) < zeros g) ∧
    (∃ res, solveBacktrack (zeros g + 1) g = some res) ∧
    (∀ limit k, ∃ k', countHelper limit (zeros g + 1) (g, k) = some (g, k')) ∧
    (∀ (limit : Nat) (clock : Nat → Int) (start pi : Int) (st : VState), st.b = g →
      ∃ st', verifyHelper clock start pi limit (zeros g + 1) st = some st') := by
  refine ⟨zeros_le g, ?_, ?_, ?_, ?_⟩
  · intro r c n hfe hn
    obtain ⟨hr, hc, h0⟩ := firstEmpty_some g r c hfe
    exact zeros_setCell_lt g hg r c n hr hc h0 (by have := (mem_candidates n).1 hn; omega)
  · obtain ⟨res, hres, _⟩ := solveBacktrack_total (zeros g + 1) g hg (Nat.lt_succ_self _)
    exact ⟨res, hres⟩
  · intro limit k
    obtain ⟨k', _, hc, _⟩ :=
      verifyHelper_refines limit (zeros g + 1) g hg (Nat.lt_succ_self _) k 0
    exact ⟨k', hc⟩
  · intro limit clock start pi st hb
    obtain ⟨_, _, _, _, _, hv⟩ := verifyHelper_refines limit (zeros g + 1) g hg
      (Nat.lt_succ_self _) st.count st.attempts
    obtain ⟨st', hst', _⟩ := hv clock start pi st hb rfl rfl
    exact ⟨st', hst'⟩

/-- Witness of C16 on the blank board, which has 81 empty cells. -/
theorem recursion_depth_bounded_witness :
    Is9x9 blankBoard ∧ zeros blankBoard = 81 ∧
    ∃ res, solveBacktrack (zeros blankBoard + 1) blankBoard = some res :=
  ⟨by decide, by decide, (recursion_depth_bounded blankBoard (by decide)).2.2.1⟩

/-! ## The reducers only empty cells -/

theorem reduceLoop_inv (P : Grid → Prop) (h9 : ∀ b, P b → Is9x9 b)
    (hclear : ∀ b r c, P b → P (setCell b r c 0)) (toRemove : Int) (cells : List (Nat × Nat)) :
    ∀ st : Grid × Nat, P st.1 → ∃ st', reduceLoop toRemove cells st = some st' ∧ P st'.1 := by
  induction cells with
  | nil => intro st h; exact ⟨st, rfl, h⟩
  | cons p rest ih =>
    rintro ⟨board, removed⟩ h
    obtain ⟨r, c⟩ := p
    simp only at h
    rw [reduceLoop]
    split
    · simp only
      obtain ⟨sols, hsols⟩ := countSolutions_total (setCell board r c 0) 2
        (h9 _ (hclear board r c h))
      rw [hsols]
      simp only
      split
      · rw [setCell_restore_any board (h9 _ h) r c 0]
        exact ih (board, removed) h
      · exact ih (setCell board r c 0, removed + 1) (hclear board r c h)
    · exact ⟨(board, removed), rfl, h⟩

theorem reduceLoopW_inv (P : Grid → Prop) (h9 : ∀ b, P b → Is9x9 b)
    (hclear : ∀ b r c, P b → P (setCell b r c 0)) (clock : Nat → Int) (start limitMs : Int)
    (toRemove : Nat) (cells : List (Nat × Nat)) :
    ∀ (tick : Nat) (st : Grid × Nat), P st.1 →
      ∃ st', reduceLoopW clock start limitMs toRemove cells tick st = some st' ∧ P st'.1 := by
  induction cells with
  | nil => intro tick st h; exact ⟨st, rfl, h⟩
  | cons p rest ih =>
    rintro tick ⟨board, removed⟩ h
    obtain ⟨r, c⟩ := p
    simp only at h
    rw [reduceLoopW]
    split
    · split
      · exact ⟨(board, removed), rfl, h⟩
      · simp only
        obtain ⟨sols, hsols⟩ := countSolutions_total (setCell board r c 0) 2
          (h9 _ (hclear board r c h))
        rw [hsols]
        simp only
        split
        · rw [setCell_restore_any board (h9 _ h) r c 0]
          exact ih (tick + 1) (board, removed) h
        · exact ih (tick + 1) (setCell board r c 0, removed + 1) (hclear board r c h)
    · exact ⟨(board, removed), rfl, h⟩

theorem blindLoop_inv (P : Grid → Prop) (hclear : ∀ b r c, P b → P (setCell b r c 0))
    (toRemove : Nat) (cells : List (Nat × Nat)) :
    ∀ st : Grid × Nat, P st.1 → P (blindLoop toRemove cells st).1 := by
  induction cells with
  | nil => intro st h; exact h
  | cons p rest ih =>
    rintro ⟨board, removed⟩ h
    obtain ⟨r, c⟩ := p
    simp only at h
    rw [blindLoop]
    split
    · split
      · exact ih _ (hclear board r c h)
      · exact ih _ h
    · exact h

theorem puzzleW_inv (P : Grid → Prop) (h9 : ∀ b, P b → Is9x9 b)
    (hclear : ∀ b r c, P b → P (setCell b r c 0)) (clock : Nat → Int) (rnd : Nat → Nat)
    (solution : Grid) (clues limitMs : Int) (h : P solution) :
    ∃ puzzle, puzzleFromSolutionWithUniqueW clock rnd solution clues limitMs = some puzzle ∧
      P puzzle := by
  unfold puzzleFromSolutionWithUniqueW
  simp only [copyBoard_eq]
  obtain ⟨st', hst', hP⟩ := reduceLoopW_inv P h9 hclear clock (clock 0) limitMs (toRemoveW clues)
    (shuffleArray rnd allCells) 1 (solution, 0) h
  rw [hst']
  obtain ⟨board1, removed⟩ := st'
  simp only
  split
  · exact ⟨_, rfl, blindLoop_inv P hclear _ _ (board1, removed) hP⟩
  · exact ⟨_, rfl, hP⟩

theorem zeroOrSame_clear (solution b : Grid) (r c : Nat)
    (h : Is9x9 b ∧ ZeroOrSame b solution) :
    Is9x9 (setCell b r c 0) ∧ ZeroOrSame (setCell b r c 0) solution := by
  refine ⟨is9x9_setCell b h.1 r c 0, ?_⟩
  by_cases hrc : r < 9 ∧ c < 9
  · intro r' hr' c' hc'
    rw [cell_setCell b h.1 r c 0 r' c' hrc.1 hrc.2]
    split
    · exact Or.inl rfl
    · exact h.2 r' hr' c' hc'
  · rw [setCell_outside b h.1 r c 0 hrc]; exact h.2

theorem cell_tabulate (f : Nat → Nat → Nat) (r c : Nat) (hr : r < 9) (hc : c < 9) :
    cell ((List.range 9).map (fun r => (List.range 9).map (fun c => f r c))) r c = f r c := by
  unfold cell
  simp [List.getD_eq_getElem?_getD, List.getElem?_map, List.getElem?_range, hr, hc]

theorem is9x9_tabulate (f : Nat → Nat → Nat) :
    Is9x9 ((List.range 9).map (fun r => (List.range 9).map (fun c => f r c))) := by
  refine ⟨by simp, ?_⟩
  intro row hrow
  obtain ⟨r, _, rfl⟩ := List.mem_map.1 hrow
  simp

theorem fillFrom_eq (puzzle solution : Grid) (h9 : Is9x9 solution)
    (h : ZeroOrSame puzzle solution) : fillFrom puzzle solution = solution := by
  unfold fillFrom
  apply grid_ext _ _ (is9x9_tabulate _) h9
  intro r hr c hc
  rw [cell_tabulate _ r c hr hc]
  split
  · rfl
  · rcases h r hr c hc with h0 | h1
    · contradiction
    · exact h1

/-- C11: for every 9x9 solution grid, every clue count, every source of shuffle draws,
every time budget and every clock, each reducer returns a 9x9 puzzle each of whose cells
is 0 or equal to the same cell of the solution, so that filling its empty cells from the
solution gives back the solution.  Both reducers work on `copyBoard(solution)`. -/
theorem reducers_only_empty_cells (solution : Grid) (h9 : Is9x9 solution) (rnd : Nat → Nat)
    (clues : Int) (clock : Nat → Int) (limitMs : Int) :
    (∃ puzzle, puzzleFromSolutionWithUnique rnd solution clues = some puzzle ∧
      Is9x9 puzzle ∧ ZeroOrSame puzzle solution ∧ fillFrom puzzle solution = solution) ∧
    (∃ puzzle, puzzleFromSolutionWithUniqueW clock rnd solution clues limitMs = some puzzle ∧
      Is9x9 puzzle ∧ ZeroOrSame puzzle solution ∧ fillFrom puzzle solution = solution) := by
  have h0 : Is9x9 solution ∧ ZeroOrSame solution solution := ⟨h9, fun _ _ _ _ => Or.inr rfl⟩
  constructor
  · obtain ⟨st', hst', hP⟩ := reduceLoop_inv (fun b => Is9x9 b ∧ ZeroOrSame b solution)
      (fun _ h => h.1) (fun b r c h => zeroOrSame_clear solution b r c h) (81 - clues)
      (shuffleArray rnd allCells) (solution, 0) h0
    refine ⟨st'.1, ?_, hP.1, hP.2, fillFrom_eq _ _ h9 hP.2⟩
    unfold puzzleFromSolutionWithUnique
    simp only [copyBoard_eq]
    rw [hst']
    rfl
  · obtain ⟨puzzle, hp, hP⟩ := puzzleW_inv (fun b => Is9x9 b ∧ ZeroOrSame b solution)
      (fun _ h => h.1) (fun b r c h => zeroOrSame_clear solution b r c h) clock rnd solution
      clues limitMs h0
    exact ⟨puzzle, hp, hP.1, hP.2, fillFrom_eq _ _ h9 hP.2⟩

/-- Witness of C11 on the fixture solution, 17 clues and a time budget that is exhausted
at the first check, so that the worker takes the blind-removal fallback. -/
theorem reducers_only_empty_cells_witness :
    Is9x9 fixture ∧
    (∃ puzzle, puzzleFromSolutionWithUnique (fun i => i) fixture 17 = some puzzle ∧
      Is9x9 puzzle ∧ ZeroOrSame puzzle fixture ∧ fillFrom puzzle fixture = fixture) ∧
    (∃ puzzle, puzzleFromSolutionWithUniqueW (fun k => 2 * k) (fun i => i) fixture 17 1 =
        some puzzle ∧
      Is9x9 puzzle ∧ ZeroOrSame puzzle fixture ∧ fillFrom puzzle fixture = fixture) :=
  ⟨fixture_is9x9,
    reducers_only_empty_cells fixture fixture_is9x9 (fun i => i) 17 (fun k => 2 * k) 1⟩

/-! ## The generation worker -/

theorem is9x9_seedBox (board : Grid) (k : Nat) (nums : List Nat) (h : Is9x9 board) :
    Is9x9 (seedBox board k nums) := by
  unfold seedBox
  generalize boxOffsets = offs
  induction offs generalizing board with
  | nil => exact h
  | cons ij offs ih => exact ih _ (is9x9_setCell board h _ _ _)

theorem is9x9_seededBoard (nums0 nums1 nums2 : List Nat) :
    Is9x9 (seededBoard nums0 nums1 nums2) := by
  unfold seededBoard
  exact is9x9_seedBox _ _ _ (is9x9_seedBox _ _ _ (is9x9_seedBox _ _ _ (by decide)))

theorem generateSolvedBoard_total (rnd : Nat → Nat → Nat) :
    ∃ solution, generateSolvedBoard rnd = some solution ∧ Is9x9 solution := by
  unfold generateSolvedBoard generateFromSeeds
  obtain ⟨res, hres, h9, _⟩ := solveBacktrack_total _ _ (is9x9_seededBoard
    (shuffleArray (rnd 0) candidates) (shuffleArray (rnd 1) candidates)
    (shuffleArray (rnd 2) candidates)) (Nat.lt_succ_self _)
  simp only
  rw [hres]
  exact ⟨res.2, rfl, h9⟩

theorem onMessage_some (clock : Nat → Int) (rnd : Nat → Nat → Nat) (m : GenMsg) :
    onMessage clock rnd (some m) =
      if m.type = none ∨ m.type = some "" then some []
      else if m.type = some "generate" then
        (generateSolvedBoard rnd).bind (fun solution =>
          (puzzleFromSolutionWithUniqueW clock (rnd 3) solution (m.clues.getD 30) 1200).map
            (fun puzzle => [GEvent.status "started", GEvent.done solution puzzle]))
      else some [] := rfl

/-- C14: for every message of type 'generate', whether `clues` is a number or not, the
generation worker posts the status event and then exactly one terminal event, the `done`
event carrying the solution and the puzzle; for an absent message or a message whose type
is absent, empty or different it posts no event. -/
theorem onMessage_one_terminal_event (clock : Nat → Int) (rnd : Nat → Nat → Nat) :
    (∀ clues : Option Int, ∃ solution puzzle,
      onMessage clock rnd (some ⟨some "generate", clues⟩) =
        some [GEvent.status "started", GEvent.done solution puzzle] ∧
      ([GEvent.status "started", GEvent.done solution puzzle].filter
        GEvent.isTerminal).length = 1) ∧
    onMessage clock rnd none = some [] ∧
    (∀ (type : Option String) (clues : Option Int), type ≠ some "generate" →
      onMessage clock rnd (some ⟨type, clues⟩) = some []) := by
  refine ⟨?_, rfl, ?_⟩
  · intro clues
    obtain ⟨solution, hsol, h9⟩ := generateSolvedBoard_total rnd
    obtain ⟨puzzle, hp, _⟩ := puzzleW_inv Is9x9 (fun _ h => h)
      (fun b r c h => is9x9_setCell b h r c 0) clock (rnd 3) solution (clues.getD 30) 1200 h9
    refine ⟨solution, puzzle, ?_, rfl⟩
    rw [onMessage_some, hsol, Option.some_bind, hp, Option.map_some']
    simp
  · intro type clues hne
    rw [onMessage_some]
    simp only [hne, if_false, ite_self]

/-- Witness of C14 with the clock `k ↦ k` and the draws `i ↦ i`: an absent message and
a message of type 'verify' make the generation worker post nothing. -/
theorem onMessage_one_terminal_event_witness :
    onMessage (fun k => (k : Int)) (fun _ i => i) none = some [] ∧
    onMessage (fun k => (k : Int)) (fun _ i => i) (some ⟨some "verify", none⟩) = some [] :=
  ⟨(onMessage_one_terminal_event (fun k => (k : Int)) (fun _ i => i)).2.1,
    (onMessage_one_terminal_event (fun k => (k : Int)) (fun _ i => i)).2.2 (some "verify") none
      (by decide)⟩

/-! ## The worker's reducer empties exactly `toRemove` cells -/

theorem swapAt_perm {α : Type} [DecidableEq α] (a : List α) (i j : Nat) :
    (swapAt a i j).Perm a := by
  unfold swapAt
  cases hi : a[i]? with
  | none => exact List.Perm.refl _
  | some x =>
    cases hj : a[j]? with
    | none => exact List.Perm.refl _
    | some y =>
      simp only
      obtain ⟨hil, hix⟩ := List.getElem?_eq_some_iff.1 hi
      obtain ⟨hjl, hjy⟩ := List.getElem?_eq_some_iff.1 hj
      rw [List.perm_iff_count]
      intro b
      have hjl' : j < (a.set i y).length := by rw [List.length_set]; exact hjl
      have hget : (a.set i y)[j] = y := by
        rw [List.getElem_set]
        split
        · rfl
        · exact hjy
      rw [List.count_set _ _ _ _ hjl', List.count_set _ _ _ _ hil, hget, hix]
      have hxmem : x ∈ a := by rw [← hix]; exact List.getElem_mem hil
      have hxpos : 0 < a.count x := List.count_pos_iff.2 hxmem
      by_cases hxb : x = b
      · subst hxb
        by_cases hyb : y = x
        · subst hyb; simp; omega
        · simp [hyb]; omega
      · by_cases hyb : y = b
        · subst hyb; simp [hxb]
        · simp [hxb, hyb]

theorem shuffleLoop_perm {α : Type} [DecidableEq α] (rnd : Nat → Nat) (k : Nat) :
    ∀ a : List α, (shuffleLoop rnd k a).Perm a := by
  induction k with
  | zero => intro a; exact List.Perm.refl _
  | succ k ih =>
    intro a
    rw [shuffleLoop]
    exact (ih _).trans (swapAt_perm a _ _)

theorem shuffleArray_perm {α : Type} [DecidableEq α] (rnd : Nat → Nat) (a : List α) :
    (shuffleArray rnd a).Perm a :=
  shuffleLoop_perm rnd _ a

theorem allCells_nodup : allCells.Nodup := by decide

theorem countP_flip {α : Type} (P Q : α → Bool) (l : List α) (hnd : l.Nodup) (x : α)
    (hx : x ∈ l) (hpx : P x = false) (hqx : Q x = true)
    (hother : ∀ y ∈ l, y ≠ x → Q y = P y) : l.countP Q = l.countP P + 1 := by
  induction l with
  | nil => simp at hx
  | cons a l ih =>
    obtain ⟨hnotin, hnd'⟩ := List.nodup_cons.1 hnd
    rcases List.mem_cons.1 hx with rfl | hx'
    · have hsame : l.countP Q = l.countP P := by
        apply List.countP_congr
        intro y hy
        have hne : y ≠ x := fun e => hnotin (e ▸ hy)
        rw [hother y (List.mem_cons_of_mem _ hy) hne]
      simp [List.countP_cons, hpx, hqx, hsame]
    · have hne : a ≠ x := fun e => hnotin (e ▸ hx')
      have := ih hnd' hx' (fun y hy => hother y (List.mem_cons_of_mem _ hy))
      have ha := hother a (List.mem_cons_self _ _) hne
      simp only [List.countP_cons, ha, this]
      omega

theorem zeros_setCell_zero (g : Grid) (hg : Is9x9 g) (r c : Nat) (hr : r < 9) (hc : c < 9)
    (hne : cell g r c ≠ 0) : zeros (setCell g r c 0) = zeros g + 1 := by
  unfold zeros
  apply countP_flip _ _ _ allCells_nodup (r, c) ((mem_allCells _).2 ⟨hr, hc⟩)
  · simpa using hne
  · rw [cell_setCell g hg r c 0 _ _ hr hc]; simp
  · intro y _ hy
    rw [cell_setCell g hg r c 0 _ _ hr hc]
    have : ¬ (y.1 = r ∧ y.2 = c) := fun e => hy (Prod.ext e.1 e.2)
    rw [if_neg this]

theorem cell_setCell_other (g : Grid) (hg : Is9x9 g) (r c v : Nat) (p : Nat × Nat)
    (hp : p ≠ (r, c)) : cell (setCell g r c v) p.1 p.2 = cell g p.1 p.2 := by
  by_cases hrc : r < 9 ∧ c < 9
  · rw [cell_setCell g hg r c v _ _ hrc.1 hrc.2]
    have : ¬ (p.1 = r ∧ p.2 = c) := fun e => hp (Prod.ext e.1 e.2)
    rw [if_neg this]
  · rw [setCell_outside g hg r c v hrc]

theorem reduceLoopW_count (clock : Nat → Int) (start limitMs : Int) (toRemove : Nat)
    (rest : List (Nat × Nat)) :
    rest.Nodup → (∀ p ∈ rest, p.1 < 9 ∧ p.2 < 9) →
    ∀ (tick : Nat) (board : Grid) (removed : Nat), Is9x9 board → zeros board = removed →
      removed ≤ toRemove → (∀ p ∈ rest, cell board p.1 p.2 ≠ 0) →
      ∃ st', reduceLoopW clock start limitMs toRemove rest tick (board, removed) = some st' ∧
        Is9x9 st'.1 ∧ zeros st'.1 = st'.2 ∧ st'.2 ≤ toRemove := by
  induction rest with
  | nil => intro _ _ tick board removed h9 hz hle _; exact ⟨_, rfl, h9, hz, hle⟩
  | cons p rest ih =>
    intro hnd hrange tick board removed h9 hz hle hnz
    obtain ⟨r, c⟩ := p
    obtain ⟨hnotin, hnd'⟩ := List.nodup_cons.1 hnd
    have hrc := hrange (r, c) (List.mem_cons_self _ _)
    have hrange' : ∀ q ∈ rest, q.1 < 9 ∧ q.2 < 9 :=
      fun q hq => hrange q (List.mem_cons_of_mem _ hq)
    rw [reduceLoopW]
    split
    · rename_i hlt
      split
      · exact ⟨_, rfl, h9, hz, hle⟩
      · simp only
        obtain ⟨sols, hsols⟩ := countSolutions_total (setCell board r c 0) 2
          (is9x9_setCell board h9 r c 0)
        rw [hsols]
        simp only
        split
        · rw [setCell_restore_any board h9 r c 0]
          exact ih hnd' hrange' (tick + 1) board removed h9 hz hle
            (fun q hq => hnz q (List.mem_cons_of_mem _ hq))
        · refine ih hnd' hrange' (tick + 1) _ (removed + 1) (is9x9_setCell board h9 r c 0) ?_
            (by omega) ?_
          · rw [zeros_setCell_zero board h9 r c hrc.1 hrc.2 (hnz (r, c) (List.mem_cons_self _ _)),
              hz]
          · intro q hq
            rw [cell_setCell_other board h9 r c 0 q (fun e => hnotin (e ▸ hq))]
            exact hnz q (List.mem_cons_of_mem _ hq)
    · exact ⟨_, rfl, h9, hz, hle⟩

theorem blindLoop_count (toRemove : Nat) (rest : List (Nat × Nat)) :
    rest.Nodup → (∀ p ∈ rest, p.1 < 9 ∧ p.2 < 9) →
    ∀ (board : Grid) (removed : Nat), Is9x9 board → zeros board = removed →
      removed ≤ toRemove →
      toRemove ≤ removed + rest.countP (fun p => cell board p.1 p.2 != 0) →
      zeros (blindLoop toRemove rest (board, removed)).1 = toRemove := by
  induction rest with
  | nil =>
    intro _ _ board removed _ hz hle hge
    simp only [List.countP_nil] at hge
    rw [blindLoop, hz]; omega
  | cons p rest ih =>
    intro hnd hrange board removed h9 hz hle hge
    obtain ⟨r, c⟩ := p
    obtain ⟨hnotin, hnd'⟩ := List.nodup_cons.1 hnd
    have hrc := hrange (r, c) (List.mem_cons_self _ _)
    have hrange' : ∀ q ∈ rest, q.1 < 9 ∧ q.2 < 9 :=
      fun q hq => hrange q (List.mem_cons_of_mem _ hq)
    rw [blindLoop]
    split
    · split
      · rename_i hne
        have hcount : rest.countP (fun p => cell (setCell board r c 0) p.1 p.2 != 0) =
            rest.countP (fun p => cell board p.1 p.2 != 0) := by
          apply List.countP_congr
          intro q hq
          rw [cell_setCell_other board h9 r c 0 q (fun e => hnotin (e ▸ hq))]
        refine ih hnd' hrange' _ (removed + 1) (is9x9_setCell board h9 r c 0) ?_ (by omega) ?_
        · rw [zeros_setCell_zero board h9 r c hrc.1 hrc.2 hne, hz]
        · rw [hcount]
          have hp : (cell board r c != 0) = true := by simpa using hne
          simp only [List.countP_cons, hp, if_true] at hge
          omega
      · rename_i h0
        have hp : (cell board r c != 0) = false := by simpa using h0
        simp only [List.countP_cons, hp] at hge
        exact ih hnd' hrange' board removed h9 hz hle (by simpa using hge)
    · rw [hz]; omega

theorem countP_nonzero_allCells (board : Grid) :
    allCells.countP (fun p => cell board p.1 p.2 != 0) + zeros board = 81 := by
  unfold zeros
  have h : allCells.length = 81 := by decide
  rw [← h, List.length_eq_countP_add_countP (fun p => cell board p.1 p.2 != 0) allCells]
  congr 1
  apply List.countP_congr
  intro q _
  simp

theorem full_of_zeros_eq_zero (board : Grid) (hz : zeros board = 0) :
    ∀ r < 9, ∀ c < 9, cell board r c ≠ 0 := by
  unfold zeros at hz
  rw [List.countP_eq_zero] at hz
  intro r hr c hc
  simpa using hz (r, c) ((mem_allCells _).2 ⟨hr, hc⟩)

theorem shuffled_cells (rnd : Nat → Nat) :
    (shuffleArray rnd allCells).Nodup ∧ (∀ p ∈ shuffleArray rnd allCells, p.1 < 9 ∧ p.2 < 9) ∧
    ∀ board : Grid, (shuffleArray rnd allCells).countP (fun p => cell board p.1 p.2 != 0) +
      zeros board = 81 := by
  have hperm := shuffleArray_perm rnd allCells
  refine ⟨hperm.nodup_iff.2 allCells_nodup, ?_, ?_⟩
  · intro p hp
    exact (mem_allCells p).1 (hperm.mem_iff.1 hp)
  · intro board
    rw [hperm.countP_eq]
    exact countP_nonzero_allCells board

theorem toRemoveW_eq (clues : Int) (h17 : 17 ≤ clues) (h81 : clues ≤ 81) :
    (toRemoveW clues : Int) = 81 - clues ∧ toRemoveW clues ≤ 81 := by
  unfold toRemoveW
  rw [if_neg (by omega)]
  omega

theorem puzzleW_of_loop (clock : Nat → Int) (rnd : Nat → Nat) (solution : Grid)
    (clues limitMs : Int) (board1 : Grid) (removed : Nat)
    (h : reduceLoopW clock (clock 0) limitMs (toRemoveW clues) (shuffleArray rnd allCells) 1
      (solution, 0) = some (board1, removed)) :
    puzzleFromSolutionWithUniqueW clock rnd solution clues limitMs =
      some (if removed < toRemoveW clues then
        (blindLoop (toRemoveW clues) (shuffleArray rnd allCells) (board1, removed)).1
        else board1) := by
  unfold puzzleFromSolutionWithUniqueW
  simp only [copyBoard_eq]
  rw [h]
  simp only
  split <;> rfl

/-- C12: for every full 9x9 solution grid, every clue count in [17,81], every source of
shuffle draws, every time budget and every clock, the worker's reducer returns a 9x9
puzzle with exactly `81 - clueCount` empty cells; for clue count 81 the puzzle is the
solution. -/
theorem workerReducer_exact_clues (solution : Grid) (h9 : Is9x9 solution)
    (hfull : ∀ r < 9, ∀ c < 9, cell solution r c ≠ 0) (clues : Int) (h17 : 17 ≤ clues)
    (h81 : clues ≤ 81) (clock : Nat → Int) (rnd : Nat → Nat) (limitMs : Int) :
    ∃ puzzle, puzzleFromSolutionWithUniqueW clock rnd solution clues limitMs = some puzzle ∧
      Is9x9 puzzle ∧ (zeros puzzle : Int) = 81 - clues ∧ (clues = 81 → puzzle = solution) := by
  obtain ⟨hnd, hrange, hcount⟩ := shuffled_cells rnd
  obtain ⟨hrem, hrem81⟩ := toRemoveW_eq clues h17 h81
  have hz0 : zeros solution = 0 := by
    unfold zeros
    rw [List.countP_eq_zero]
    intro p hp
    have := hfull p.1 ((mem_allCells p).1 hp).1 p.2 ((mem_allCells p).1 hp).2
    simpa using this
  obtain ⟨puzzle, hp, hp9, hsame⟩ := puzzleW_inv (fun b => Is9x9 b ∧ ZeroOrSame b solution)
    (fun _ h => h.1) (fun b r c h => zeroOrSame_clear solution b r c h) clock rnd solution
    clues limitMs ⟨h9, fun _ _ _ _ => Or.inr rfl⟩
  have hzeros : zeros puzzle = toRemoveW clues := by
    obtain ⟨st', hst', hst9, hstz, hstle⟩ := reduceLoopW_count clock (clock 0) limitMs
      (toRemoveW clues) (shuffleArray rnd allCells) hnd hrange 1 solution 0 h9 hz0
      (Nat.zero_le _) (fun p hp => hfull p.1 (hrange p hp).1 p.2 (hrange p hp).2)
    obtain ⟨board1, removed⟩ := st'
    simp only at hst9 hstz hstle
    rw [puzzleW_of_loop clock rnd solution clues limitMs board1 removed hst'] at hp
    have hp' := Option.some.inj hp
    rw [← hp']
    split
    · apply blindLoop_count (toRemoveW clues) _ hnd hrange board1 removed hst9 hstz hstle
      have := hcount board1
      omega
    · rw [hstz]
      omega
  refine ⟨puzzle, hp, hp9, by rw [hzeros]; exact hrem, ?_⟩
  intro h
  have hz : zeros puzzle = 0 := by omega
  have hnz := full_of_zeros_eq_zero puzzle hz
  apply grid_ext _ _ hp9 h9
  intro r hr c hc
  rcases hsame r hr c hc with h0 | h1
  · exact absurd h0 (hnz r hr c hc)
  · exact h1

/-- Witness of C12 on the fixture solution with 17 clues and a time budget that is
already exhausted at the first check. -/
theorem workerReducer_exact_clues_witness :
    Is9x9 fixture ∧ (∀ r < 9, ∀ c < 9, cell fixture r c ≠ 0) ∧ (17 : Int) ≤ 17 ∧
    (17 : Int) ≤ 81 ∧
    ∃ puzzle, puzzleFromSolutionWithUniqueW (fun k => 2 * k) (fun i => i) fixture 17 1 =
        some puzzle ∧
      Is9x9 puzzle ∧ (zeros puzzle : Int) = 81 - 17 ∧ ((17 : Int) = 81 → puzzle = fixture) :=
  ⟨fixture_is9x9, by decide, by decide, by decide,
    workerReducer_exact_clues fixture fixture_is9x9 (by decide) 17 (by decide) (by decide)
      (fun k => 2 * k) (fun i => i) 1⟩

/-! ## Win detection -/

theorem noRepeat_iff (vals : List Nat) :
    ∀ seen : List Nat, noRepeat seen vals = true ↔ vals.Nodup ∧ ∀ v ∈ vals, v ∉ seen := by
  induction vals with
  | nil => intro seen; simp [noRepeat]
  | cons v vs ih =>
    intro seen
    rw [noRepeat]
    by_cases hv : v ∈ seen
    · have hc : seen.contains v = true := by simpa using hv
      rw [if_pos hc]
      constructor
      · intro h; exact absurd h (by simp)
      · rintro ⟨_, h⟩; exact absurd hv (h v (List.mem_cons_self _ _))
    · have hc : ¬ seen.contains v = true := by simpa using hv
      rw [if_neg hc, ih (v :: seen), List.nodup_cons]
      constructor
      · rintro ⟨hnd, h⟩
        refine ⟨⟨fun hmem => ?_, hnd⟩, ?_⟩
        · exact h v hmem (List.mem_cons_self _ _)
        · intro w hw
          rcases List.mem_cons.1 hw with rfl | hw'
          · exact hv
          · exact fun hs => h w hw' (List.mem_cons_of_mem _ hs)
      · rintro ⟨⟨hnotin, hnd⟩, h⟩
        refine ⟨hnd, ?_⟩
        intro w hw hmem
        rcases List.mem_cons.1 hmem with rfl | hs
        · exact hnotin hw
        · exact h w (List.mem_cons_of_mem _ hw) hs

theorem noRepeat_nil_iff (vals : List Nat) : noRepeat [] vals = true ↔ vals.Nodup := by
  rw [noRepeat_iff]
  simp

theorem mem_units (u : List (Nat × Nat)) :
    u ∈ units ↔ (∃ r < 9, u = rowCells r) ∨ (∃ c < 9, u = colCells c) ∨
      (∃ k < 9, u = boxCells k) := by
  unfold units
  simp only [List.mem_append, List.mem_map, List.mem_range]
  constructor
  · rintro ((⟨r, hr, rfl⟩ | ⟨c, hc, rfl⟩) | ⟨k, hk, rfl⟩)
    · exact Or.inl ⟨r, hr, rfl⟩
    · exact Or.inr (Or.inl ⟨c, hc, rfl⟩)
    · exact Or.inr (Or.inr ⟨k, hk, rfl⟩)
  · rintro (⟨r, hr, rfl⟩ | ⟨c, hc, rfl⟩ | ⟨k, hk, rfl⟩)
    · exact Or.inl (Or.inl ⟨r, hr, rfl⟩)
    · exact Or.inl (Or.inr ⟨c, hc, rfl⟩)
    · exact Or.inr ⟨k, hk, rfl⟩

theorem boxVals_eq (board : Grid) (a b : Nat) (hb : b < 3) :
    boxOffsets.map (fun ij => cell board (a * 3 + ij.1) (b * 3 + ij.2)) =
      (boxCells (a * 3 + b)).map (fun p => cell board p.1 p.2) := by
  unfold boxCells
  rw [List.map_map]
  apply List.map_congr_left
  intro ij _
  have h1 : (a * 3 + b) / 3 = a := by omega
  have h2 : (a * 3 + b) % 3 = b := by omega
  simp only [Function.comp, h1, h2]

theorem isSolved_iff (board : Grid) :
    isSolved board = true ↔ (∀ r < 9, ∀ c < 9, cell board r c ≠ 0) ∧
      ∀ u ∈ units, (u.map (fun p => cell board p.1 p.2)).Nodup := by
  unfold isSolved
  simp only [Bool.and_eq_true, List.all_eq_true, List.mem_range, noRepeat_nil_iff, bne_iff_ne,
    ne_eq]
  constructor
  · rintro ⟨⟨⟨hfull, hrows⟩, hcols⟩, hboxes⟩
    refine ⟨fun r hr c hc => hfull (r, c) ((mem_allCells _).2 ⟨hr, hc⟩), ?_⟩
    intro u hu
    rcases (mem_units u).1 hu with ⟨r, hr, rfl⟩ | ⟨c, hc, rfl⟩ | ⟨k, hk, rfl⟩
    · have := hrows r hr
      unfold rowCells; rw [List.map_map]; exact this
    · have := hcols c hc
      unfold colCells; rw [List.map_map]; exact this
    · have := hboxes (k / 3) (by omega) (k % 3) (by omega)
      rw [boxVals_eq board _ _ (by omega)] at this
      have hk' : k / 3 * 3 + k % 3 = k := by omega
      rw [hk'] at this
      exact this
  · rintro ⟨hfull, hunits⟩
    refine ⟨⟨⟨fun p hp => hfull p.1 ((mem_allCells p).1 hp).1 p.2 ((mem_allCells p).1 hp).2, ?_⟩,
      ?_⟩, ?_⟩
    · intro r hr
      have := hunits (rowCells r) ((mem_units _).2 (Or.inl ⟨r, hr, rfl⟩))
      unfold rowCells at this; rw [List.map_map] at this; exact this
    · intro c hc
      have := hunits (colCells c) ((mem_units _).2 (Or.inr (Or.inl ⟨c, hc, rfl⟩)))
      unfold colCells at this; rw [List.map_map] at this; exact this
    · intro a ha b hb
      rw [boxVals_eq board a b hb]
      exact hunits _ ((mem_units _).2 (Or.inr (Or.inr ⟨a * 3 + b, by omega, rfl⟩)))

theorem isSolved_iff_eachOnce (board : Grid) (hin : InRange board) :
    isSolved board = true ↔ (∀ r < 9, ∀ c < 9, cell board r c ≠ 0) ∧ EachOnce (cell board) := by
  rw [isSolved_iff]
  constructor
  · rintro ⟨hfull, hunits⟩
    refine ⟨hfull, ?_⟩
    intro u hu
    rw [count_once_iff _ (by rw [List.length_map]; exact (units_shape u hu).2)]
    refine ⟨hunits u hu, ?_⟩
    intro v hv
    obtain ⟨p, hp, rfl⟩ := List.mem_map.1 hv
    have hpr := units_inRange u hu p hp
    have h1 := hfull p.1 hpr.1 p.2 hpr.2
    have h2 := hin p.1 hpr.1 p.2 hpr.2
    omega
  · rintro ⟨hfull, heach⟩
    refine ⟨hfull, ?_⟩
    intro u hu
    exact ((count_once_iff _ (by rw [List.length_map]; exact (units_shape u hu).2)).1
      (heach u hu)).1

/-- C18: on a 9x9 grid with entries in 0..9, `isSolved` is true if and only if the board
has no zero cell and every row, column and box holds each of 1-9 exactly once; and
`isSolved` is true of the grid left by `solveBacktrack` whenever it returns true on a
grid whose filled cells satisfy the Grid invariant. -/
theorem isSolved_iff_solution :
    (∀ board : Grid, Is9x9 board → InRange board →
      (isSolved board = true ↔
        (∀ r < 9, ∀ c < 9, cell board r c ≠ 0) ∧ EachOnce (cell board))) ∧
    (∀ (g : Grid) (fuel : Nat), Is9x9 g → InRange g → GridInv g → zeros g < fuel →
      ∃ res, solveBacktrack fuel g = some res ∧ (res.1 = true → isSolved res.2 = true)) := by
  constructor
  · intro board _ hin
    exact isSolved_iff_eachOnce board hin
  · intro g fuel hg hin hinv hfuel
    obtain ⟨res, hres, htrue, _⟩ := solveBacktrack_spec fuel g hg hin hinv hfuel
    refine ⟨res, hres, fun h => ?_⟩
    obtain ⟨_, hv, _⟩ := htrue h
    rw [isSolved_iff_eachOnce res.2 (inRange_of_fullValid _ hv)]
    refine ⟨?_, (eachOnce_iff _).2 hv⟩
    intro r hr c hc
    have := (hv.1 r hr c hc).1
    omega

/-- Witness of C18: `isSolved` holds of the fixture solution, fails on the fixture puzzle,
and holds of the grid the solver leaves from the fixture puzzle. -/
theorem isSolved_iff_solution_witness :
    Is9x9 fixture ∧ InRange fixture ∧ isSolved fixture = true ∧
    isSolved fixturePuzzle = false ∧
    (isSolved fixture = true ↔
      (∀ r < 9, ∀ c < 9, cell fixture r c ≠ 0) ∧ EachOnce (cell fixture)) ∧
    ∃ res, solveBacktrack 4 fixturePuzzle = some res ∧ (res.1 = true → isSolved res.2 = true) :=
  ⟨fixture_is9x9, fixture_inRange, by decide, by decide,
    isSolved_iff_solution.1 fixture fixture_is9x9 fixture_inRange,
    isSolved_iff_solution.2 fixturePuzzle 4 fixturePuzzle_is9x9 fixturePuzzle_inRange
      fixturePuzzle_gridInv (by decide)⟩

/-! ## The solver finds the lexicographically smallest completion -/

theorem allCells_eq_range : allCells = (List.range 81).map (fun j => (j / 9, j % 9)) := by
  decide

theorem firstEmpty_first (g : Grid) (r c : Nat) (h : firstEmpty g = some (r, c)) :
    ∀ j < r * 9 + c, cell g (j / 9) (j % 9) ≠ 0 := by
  obtain ⟨_, hc, _⟩ := firstEmpty_some g r c h
  unfold firstEmpty at h
  rw [allCells_eq_range, List.find?_map] at h
  cases hf : (List.range 81).find?
      ((fun p : Nat × Nat => cell g p.1 p.2 == 0) ∘ fun j => (j / 9, j % 9)) with
  | none => rw [hf] at h; simp at h
  | some i =>
    rw [hf] at h
    simp only [Option.map_some', Option.some.injEq, Prod.mk.injEq] at h
    rw [List.find?_range_eq_some] at hf
    obtain ⟨_, _, hbefore⟩ := hf
    intro j hj
    have hi : i = r * 9 + c := by omega
    have := hbefore j (by omega)
    simpa using this

theorem candidates_sorted : candidates.Pairwise (fun a b => a < b) := by decide

theorem solveLoop_lex (solve : Grid → Option (Bool × Grid)) (g : Grid)
    (hg : Is9x9 g) (hin : InRange g) (hinv : GridInv g) (r c : Nat) (hr : r < 9) (hc : c < 9)
    (h0 : cell g r c = 0) (hfirst : ∀ j < r * 9 + c, cell g (j / 9) (j % 9) ≠ 0)
    (ihs : ∀ g', Is9x9 g' → InRange g' → GridInv g' → zeros g' < zeros g →
      ∃ res, solve g' = some res ∧ SolveOutcome g' res)
    (ihl : ∀ g', Is9x9 g' → InRange g' → GridInv g' → zeros g' < zeros g →
      ∀ b, solve g' = some (true, b) → LexMin g' b)
    (ns : List Nat) (hns : ∀ n ∈ ns, 1 ≤ n ∧ n ≤ 9) (hsorted : ns.Pairwise (fun a b => a < b)) :
    ∀ b, solveLoop solve r c ns g = some (true, b) →
      ∀ s : Full, IsCompletion g s → s.read r c ∈ ns →
        (∀ r' < 9, ∀ c' < 9, cell b r' c' = s.read r' c') ∨ LexLt (cell b) s.read := by
  induction ns with
  | nil => intro b _ s _ hmem; simp at hmem
  | cons n ns ihns =>
    intro b hb s hs hmem
    have hn := hns n (List.mem_cons_self _ _)
    have hns' : ∀ m ∈ ns, 1 ≤ m ∧ m ≤ 9 := fun m hm => hns m (List.mem_cons_of_mem _ hm)
    obtain ⟨hlt, hsorted'⟩ := List.pairwise_cons.1 hsorted
    have hnot : numCompletions (setCell g r c n) = 0 → s.read r c ∈ ns := by
      intro hz
      rcases List.mem_cons.1 hmem with heq | h
      · have := numCompletions_pos _ s
          ((isCompletion_setCell g hg r c n hr hc h0 (by omega) s).2 ⟨hs, heq⟩)
        omega
      · exact h
    rw [solveLoop] at hb
    by_cases hcp : canPlace g r c n = true
    · rw [if_pos hcp] at hb
      have hg' := is9x9_setCell g hg r c n
      have hin' := inRange_setCell g hg hin r c n hr hc hn.2
      have hinv' := gridInv_setCell g hg hinv r c n hr hc hcp
      have hz' := zeros_setCell_lt g hg r c n hr hc h0 (by omega)
      obtain ⟨res1, hres1, ht1, hf1⟩ := ihs _ hg' hin' hinv' hz'
      rw [hres1] at hb
      obtain ⟨ok, b1⟩ := res1
      cases ok with
      | true =>
        simp only [Option.some.injEq, Prod.mk.injEq, true_and] at hb
        subst hb
        obtain ⟨_, _, hext⟩ := ht1 rfl
        rcases List.mem_cons.1 hmem with heq | hm
        · exact ihl _ hg' hin' hinv' hz' b1 hres1 s
            ((isCompletion_setCell g hg r c n hr hc h0 (by omega) s).2 ⟨hs, heq⟩)
        · right
          refine ⟨r * 9 + c, by omega, ?_, ?_⟩
          · intro j hj
            have hj9 : j / 9 < 9 := by omega
            have hjm : j % 9 < 9 := by omega
            have hne : ¬ (j / 9 = r ∧ j % 9 = c) := by omega
            have hgj := hfirst j hj
            have h1 := hext (j / 9) hj9 (j % 9) hjm
            rw [cell_setCell g hg r c n _ _ hr hc, if_neg hne] at h1
            rw [h1 hgj, hs.1 (j / 9) hj9 (j % 9) hjm hgj]
          · have e1 : (r * 9 + c) / 9 = r := by omega
            have e2 : (r * 9 + c) % 9 = c := by omega
            rw [e1, e2]
            have h1 := hext r hr c hc
            rw [cell_setCell g hg r c n _ _ hr hc, if_pos ⟨rfl, rfl⟩] at h1
            rw [h1 (by omega)]
            exact hlt _ hm
      | false =>
        obtain ⟨hb1, hzero⟩ := hf1 rfl
        simp only at hb1 hb
        rw [hb1, setCell_clear g hg r c n hr hc h0] at hb
        exact ihns hns' hsorted' b hb s hs (hnot hzero)
    · rw [if_neg hcp] at hb
      exact ihns hns' hsorted' b hb s hs
        (hnot (numCompletions_of_not_canPlace g hg r c n hr hc h0 (by omega) hcp))

theorem solveBacktrack_lex (fuel : Nat) :
    ∀ g : Grid, Is9x9 g → InRange g → GridInv g → zeros g < fuel →
      ∀ b, solveBacktrack fuel g = some (true, b) → LexMin g b := by
  induction fuel with
  | zero => intro g _ _ _ hz; omega
  | succ fuel ih =>
    intro g hg hin hinv hz b hb s hs
    rw [solveBacktrack] at hb
    cases hfe : firstEmpty g with
    | none =>
      rw [hfe] at hb
      simp only [Option.some.injEq, Prod.mk.injEq, true_and] at hb
      subst hb
      left
      intro r hr c hc
      exact (hs.1 r hr c hc (firstEmpty_none g hfe r hr c hc)).symm
    | some p =>
      obtain ⟨r, c⟩ := p
      rw [hfe] at hb
      simp only at hb
      obtain ⟨hr, hc, h0⟩ := firstEmpty_some g r c hfe
      exact solveLoop_lex (solveBacktrack fuel) g hg hin hinv r c hr hc h0
        (firstEmpty_first g r c hfe)
        (fun g' hg' hin' hinv' hz' => solveBacktrack_spec fuel g' hg' hin' hinv' (by omega))
        (fun g' hg' hin' hinv' hz' => ih g' hg' hin' hinv' (by omega))
        candidates (fun n hn => (mem_candidates n).1 hn) candidates_sorted b hb s hs
        ((mem_candidates _).2 ((completion_fullValid g s hs).1 r hr c hc))

/-- C17: on a 9x9 grid whose filled cells satisfy the Grid invariant and that has at
least one valid completion, `solveBacktrack` returns true and leaves a grid that is a
valid completion of the input and that every valid completion either equals or follows
in the lexicographic order of the cells taken in row-major order. -/
theorem solveBacktrack_lex_smallest (g : Grid) (fuel : Nat) (hg : Is9x9 g) (hin : InRange g)
    (hinv : GridInv g) (hfuel : zeros g < fuel) (hsol : ∃ s : Full, IsCompletion g s) :
    ∃ b, solveBacktrack fuel g = some (true, b) ∧ Is9x9 b ∧ IsCompletion g (toFull b) ∧
      ∀ s : Full, IsCompletion g s →
        (∀ r < 9, ∀ c < 9, cell b r c = s.read r c) ∨ LexLt (cell b) s.read := by
  obtain ⟨res, hres, htrue, hfalse⟩ := solveBacktrack_spec fuel g hg hin hinv hfuel
  obtain ⟨ok, b⟩ := res
  obtain ⟨s0, hs0⟩ := hsol
  cases ok with
  | false =>
    have := numCompletions_pos g s0 hs0
    rw [(hfalse rfl).2] at this
    omega
  | true =>
    obtain ⟨h9, hv, hext⟩ := htrue rfl
    exact ⟨b, hres, h9, isCompletion_of_outcome g b hv hext,
      solveBacktrack_lex fuel g hg hin hinv hfuel b hres⟩

/-- Witness of C17 on the fixture puzzle, which the fixture solution completes. -/
theorem solveBacktrack_lex_smallest_witness :
    Is9x9 fixturePuzzle ∧ InRange fixturePuzzle ∧ GridInv fixturePuzzle ∧
    zeros fixturePuzzle < 4 ∧ (∃ s : Full, IsCompletion fixturePuzzle s) ∧
    ∃ b, solveBacktrack 4 fixturePuzzle = some (true, b) ∧ Is9x9 b ∧
      IsCompletion fixturePuzzle (toFull b) ∧
      ∀ s : Full, IsCompletion fixturePuzzle s →
        (∀ r < 9, ∀ c < 9, cell b r c = s.read r c) ∨ LexLt (cell b) s.read :=
  have hsol : ∃ s : Full, IsCompletion fixturePuzzle s :=
    ⟨toFull fixture, isCompletion_of_outcome fixturePuzzle fixture fixture_fullValid (by decide)⟩
  ⟨fixturePuzzle_is9x9, fixturePuzzle_inRange, fixturePuzzle_gridInv, by decide, hsol,
    solveBacktrack_lex_smallest fixturePuzzle 4 fixturePuzzle_is9x9 fixturePuzzle_inRange
      fixturePuzzle_gridInv (by decide) hsol⟩

/-! ## The worker's reducer and uniqueness -/

theorem reduceLoopW_unique (clock : Nat → Int) (start limitMs : Int) (toRemove : Nat)
    (cells : List (Nat × Nat)) :
    ∀ (tick : Nat) (st : Grid × Nat), Is9x9 st.1 → countSolutions st.1 2 = some 1 →
      ∃ st', reduceLoopW clock start limitMs toRemove cells tick st = some st' ∧ Is9x9 st'.1 ∧
        countSolutions st'.1 2 = some 1 := by
  induction cells with
  | nil => intro tick st h9 hu; exact ⟨st, rfl, h9, hu⟩
  | cons p rest ih =>
    rintro tick ⟨board, removed⟩ h9 hu
    obtain ⟨r, c⟩ := p
    simp only at h9 hu
    rw [reduceLoopW]
    split
    · split
      · exact ⟨(board, removed), rfl, h9, hu⟩
      · simp only
        obtain ⟨sols, hsols⟩ := countSolutions_total (setCell board r c 0) 2
          (is9x9_setCell board h9 r c 0)
        rw [hsols]
        simp only
        split
        · rw [setCell_restore_any board h9 r c 0]
          exact ih (tick + 1) (board, removed) h9 hu
        · rename_i hne
          have h1 : sols = 1 := by simpa using hne
          exact ih (tick + 1) (setCell board r c 0, removed + 1) (is9x9_setCell board h9 r c 0)
            (by rw [hsols, h1])
    · exact ⟨(board, removed), rfl, h9, hu⟩

theorem extendsB_iff (g b : Grid) : extendsB g b = true ↔ Extends g b := by
  unfold extendsB Extends
  simp only [List.all_eq_true, Bool.or_eq_true, beq_iff_eq]
  constructor
  · intro h r hr c hc hne
    rcases h (r, c) ((mem_allCells _).2 ⟨hr, hc⟩) with h0 | h1
    · exact absurd h0 hne
    · exact h1
  · intro h p hp
    rw [mem_allCells] at hp
    by_cases h0 : cell g p.1 p.2 = 0
    · exact Or.inl h0
    · exact Or.inr (h p.1 hp.1 p.2 hp.2 h0)

theorem inRangeB_iff (g : Grid) : inRangeB g = true ↔ InRange g := by
  unfold inRangeB InRange
  simp only [List.all_eq_true, decide_eq_true_eq]
  constructor
  · intro h r hr c hc; exact h (r, c) ((mem_allCells _).2 ⟨hr, hc⟩)
  · intro h p hp
    rw [mem_allCells] at hp
    exact h p.1 hp.1 p.2 hp.2

theorem zeroOrSame_valid (solution b : Grid) (hv : FullValid (cell solution))
    (h : ZeroOrSame b solution) :
    InRange b ∧ GridInv b ∧ IsCompletion b (toFull solution) := by
  have hext : Extends b solution := by
    intro r hr c hc hne
    rcases h r hr c hc with h0 | h1
    · exact absurd h0 hne
    · exact h1.symm
  have hc := isCompletion_of_outcome b solution hv hext
  exact ⟨(gridInv_of_completion b _ hc).1, (gridInv_of_completion b _ hc).2, hc⟩

theorem numCompletions_le_of_extends (g b : Grid) (hext : Extends g b) :
    numCompletions b ≤ numCompletions g := by
  unfold numCompletions
  apply Finset.card_le_card
  intro s hs
  rw [mem_completions] at hs ⊢
  refine ⟨?_, hs.2⟩
  intro r hr c hc hne
  have hb := hext r hr c hc hne
  rw [← hb]
  exact hs.1 r hr c hc (by rw [hb]; exact hne)

theorem two_le_numCompletions (b : Grid) (s t : Full) (hs : IsCompletion b s)
    (ht : IsCompletion b t) (hne : s ≠ t) : 2 ≤ numCompletions b := by
  unfold numCompletions
  have hsub : ({s, t} : Finset Full) ⊆ completions b := by
    intro x hx
    rw [Finset.mem_insert, Finset.mem_singleton] at hx
    rcases hx with rfl | rfl
    · exact (mem_completions b _).2 hs
    · exact (mem_completions b _).2 ht
  have := Finset.card_le_card hsub
  rw [Finset.card_pair hne] at this
  exact this

theorem two_completions (solution b t : Grid) (hv : FullValid (cell solution))
    (hb : ZeroOrSame b solution) (ht : inRangeB t = true) (hsolved : isSolved t = true)
    (hext : extendsB b t = true) (r c : Nat) (hr : r < 9) (hc : c < 9)
    (hne : cell t r c ≠ cell solution r c) : 2 ≤ numCompletions b := by
  have htin := (inRangeB_iff t).1 ht
  have htv : FullValid (cell t) :=
    (eachOnce_iff _).1 ((isSolved_iff_eachOnce t htin).1 hsolved).2
  have h1 := (zeroOrSame_valid solution b hv hb).2.2
  have h2 := isCompletion_of_outcome b t htv ((extendsB_iff b t).1 hext)
  apply two_le_numCompletions b _ _ h1 h2
  intro e
  have := congrArg (fun s : Full => s.read r c) e
  simp only at this
  rw [toFull_at solution (inRange_of_fullValid _ hv) r c hr hc, toFull_at t htin r c hr hc]
    at this
  exact hne this.symm

theorem replay_le (solution minimal : Grid) (ds : List Decision) :
    ∀ (board : Grid) (removed : Nat) (st' : Grid × Nat),
      replay solution minimal ds (board, removed) = some st' → removed ≤ st'.2 := by
  induction ds with
  | nil =>
    intro board removed st' h
    rw [replay] at h
    rw [← Option.some.inj h]
  | cons d rest ih =>
    intro board removed st' h
    obtain ⟨⟨r, c⟩, o⟩ := d
    cases o with
    | none =>
      rw [replay] at h
      split at h
      · have := ih _ _ _ h; omega
      · exact absurd h (by simp)
    | some t =>
      rw [replay] at h
      split at h
      · exact ih _ _ _ h
      · exact absurd h (by simp)

theorem replay_sound (solution minimal : Grid) (hv : FullValid (cell solution))
    (hmin : numCompletions minimal = 1) (clock : Nat → Int) (start limitMs : Int)
    (toRemove : Nat) (hclock : ∀ k, ¬ (clock k - start > limitMs)) (ds : List Decision) :
    ∀ (tick : Nat) (board : Grid) (removed : Nat) (st' : Grid × Nat),
      Is9x9 board → ZeroOrSame board solution → (∀ d ∈ ds, d.1.1 < 9 ∧ d.1.2 < 9) →
      replay solution minimal ds (board, removed) = some st' → st'.2 < toRemove →
      reduceLoopW clock start limitMs toRemove (ds.map Prod.fst) tick (board, removed) =
        some st' := by
  induction ds with
  | nil =>
    intro tick board removed st' _ _ _ h _
    rw [replay] at h
    rw [List.map_nil, reduceLoopW, h]
  | cons d rest ih =>
    intro tick board removed st' h9 hzs hrange h hlt
    obtain ⟨⟨r, c⟩, o⟩ := d
    have hrc := hrange ((r, c), o) (List.mem_cons_self _ _)
    have hrange' : ∀ d ∈ rest, d.1.1 < 9 ∧ d.1.2 < 9 :=
      fun d hd => hrange d (List.mem_cons_of_mem _ hd)
    have hle := replay_le solution minimal _ board removed st' h
    have h9' := is9x9_setCell board h9 r c 0
    have hzs' := (zeroOrSame_clear solution board r c ⟨h9, hzs⟩).2
    obtain ⟨hin', hinv', hsol'⟩ := zeroOrSame_valid solution _ hv hzs'
    rw [List.map_cons, reduceLoopW, if_pos (by omega), if_neg (hclock tick)]
    simp only
    rw [countSolutions_spec _ 2 h9' hin' hinv']
    simp only
    cases o with
    | none =>
      rw [replay] at h
      split at h
      · rename_i hext
        have h1 : numCompletions (setCell board r c 0) ≤ 1 := by
          rw [← hmin]
          exact numCompletions_le_of_extends _ _ ((extendsB_iff _ _).1 hext)
        have h2 := numCompletions_pos _ _ hsol'
        have h3 : min 2 (numCompletions (setCell board r c 0)) = 1 := by omega
        rw [h3, if_neg (by simp)]
        exact ih (tick + 1) _ _ st' h9' hzs' hrange' h hlt
      · exact absurd h (by simp)
    | some t =>
      rw [replay] at h
      split at h
      · rename_i hchk
        simp only [Bool.and_eq_true, bne_iff_ne, ne_eq, decide_eq_true_eq] at hchk
        obtain ⟨⟨⟨⟨_, htin⟩, hsolved⟩, hext⟩, hne⟩ := hchk
        have h2 := two_completions solution _ t hv hzs' htin hsolved hext r c hrc.1 hrc.2 hne
        have h3 : min 2 (numCompletions (setCell board r c 0)) = 2 := by omega
        rw [h3, if_pos (by simp), setCell_restore_any board h9 r c 0]
        exact ih (tick + 1) _ _ st' h9 hzs hrange' h hlt
      · exact absurd h (by simp)

theorem reducedFixture_unique : numCompletions reducedFixture = 1 := by
  have hz : ZeroOrSame reducedFixture fixture := by decide
  obtain ⟨hin, hinv, _⟩ := zeroOrSame_valid fixture reducedFixture fixture_fullValid hz
  have hcount : countSolutions reducedFixture 2 = some 1 := by decide!
  rw [countSolutions_spec reducedFixture 2 (by decide) hin hinv] at hcount
  have := Option.some.inj hcount
  omega

theorem reduceDecisions_replay :
    replay fixture reducedFixture reduceDecisions (fixture, 0) = some (reducedFixture, 55) := by
  decide!

theorem reduceDecisions_order :
    shuffleArray (fun i => reduceDraws.getD i 0) allCells = reduceDecisions.map Prod.fst := by
  decide!

theorem blindFixture_two : countSolutions blindFixture 2 = some 2 := by
  have hz : ZeroOrSame blindFixture fixture := by decide
  obtain ⟨hin, hinv, _⟩ := zeroOrSame_valid fixture blindFixture fixture_fullValid hz
  rw [countSolutions_spec blindFixture 2 (by decide) hin hinv]
  have := two_completions fixture blindFixture blindFixtureOther fixture_fullValid hz
    (by decide) (by decide) (by decide) 7 1 (by decide) (by decide) (by decide)
  congr 1
  omega

theorem reduceDecisions_loop :
    reduceLoopW (fun _ => 0) 0 1200 57 (shuffleArray (fun i => reduceDraws.getD i 0) allCells) 1
      (fixture, 0) = some (reducedFixture, 55) := by
  rw [reduceDecisions_order]
  exact replay_sound fixture reducedFixture fixture_fullValid reducedFixture_unique (fun _ => 0)
    0 1200 57 (fun _ => by simp) reduceDecisions 1 fixture 0 (reducedFixture, 55)
    fixture_is9x9 (fun _ _ _ _ => Or.inr rfl) (by decide) reduceDecisions_replay (by decide)

theorem reduceDecisions_blind :
    blindLoop 57 (shuffleArray (fun i => reduceDraws.getD i 0) allCells) (reducedFixture, 55) =
      (blindFixture, 57) := by
  rw [reduceDecisions_order]
  decide!

/-- C9, a defect of the worker's reducer: on the fixture solution with 24 clues asked, a
clock that never moves (the time limit is never exceeded) and the cell order drawn by
`reduceDraws`, the first loop visits all 81 cells and keeps 55 removals only; the fallback,
guarded by `removed < toRemove` alone although its comment ties it to the time limit, then
empties cells (7,1) and (6,6) without a uniqueness check, and the puzzle returned has two
solutions. -/
theorem workerReducer_blind_without_timeout :
    Is9x9 fixture ∧ EachOnce (cell fixture) ∧ (17 : Int) ≤ 24 ∧ (24 : Int) ≤ 81 ∧
    (∀ k : Nat, (fun _ : Nat => (0 : Int)) k - (fun _ : Nat => (0 : Int)) 0 ≤ 1200) ∧
    puzzleFromSolutionWithUniqueW (fun _ => 0) (fun i => reduceDraws.getD i 0) fixture 24 1200 =
      some blindFixture ∧
    countSolutions blindFixture 2 = some 2 := by
  refine ⟨fixture_is9x9, fixture_eachOnce, by decide, by decide, fun _ => by simp, ?_,
    blindFixture_two⟩
  have h57 : toRemoveW 24 = 57 := by decide
  have hloop := reduceDecisions_loop
  rw [← h57] at hloop
  rw [puzzleW_of_loop (fun _ => 0) (fun i => reduceDraws.getD i 0) fixture 24 1200
    reducedFixture 55 hloop, h57, if_pos (by decide), reduceDecisions_blind]

/-- What the worker's reducer does keep: for every valid full solution, every clue count,
every source of shuffle draws, every time budget and every clock, the board left by its
first loop has `countSolutions(board, 2) = 1`, and it is the puzzle returned, so that
`countSolutions(puzzle, 2) = 1`, whenever that loop has kept its quota of removals (the
blind-removal fallback is then not taken). -/
theorem workerReducer_unique_when_quota_kept (clock : Nat → Int) (rnd : Nat → Nat)
    (solution : Grid) (clues limitMs : Int) (h9 : Is9x9 solution)
    (hvalid : EachOnce (cell solution)) :
    ∃ board1 removed puzzle,
      reduceLoopW clock (clock 0) limitMs (toRemoveW clues) (shuffleArray rnd allCells) 1
        (copyBoard solution, 0) = some (board1, removed) ∧
      countSolutions board1 2 = some 1 ∧
      puzzleFromSolutionWithUniqueW clock rnd solution clues limitMs = some puzzle ∧
      (toRemoveW clues ≤ removed → puzzle = board1 ∧ countSolutions puzzle 2 = some 1) := by
  have hv := (eachOnce_iff _).1 hvalid
  have hfull : ∀ r < 9, ∀ c < 9, cell solution r c ≠ 0 := by
    intro r hr c hc
    have := (hv.1 r hr c hc).1
    omega
  obtain ⟨st', hst', _, hu⟩ := reduceLoopW_unique clock (clock 0) limitMs (toRemoveW clues)
    (shuffleArray rnd allCells) 1 (solution, 0) h9
    (countSolutions_of_full solution 2 (by decide) hfull)
  obtain ⟨board1, removed⟩ := st'
  simp only at hu
  refine ⟨board1, removed, _, by rw [copyBoard_eq]; exact hst', hu,
    puzzleW_of_loop clock rnd solution clues limitMs board1 removed hst', ?_⟩
  intro hle
  rw [if_neg (by omega)]
  exact ⟨rfl, hu⟩

/-- Instance of `workerReducer_unique_when_quota_kept` on the fixture solution with 78
clues asked, the identity draws and a clock that never moves. -/
theorem workerReducer_unique_when_quota_kept_witness :
    Is9x9 fixture ∧ EachOnce (cell fixture) ∧
    ∃ board1 removed puzzle,
      reduceLoopW (fun _ => 0) 0 1200 (toRemoveW 78) (shuffleArray (fun i => i) allCells) 1
        (copyBoard fixture, 0) = some (board1, removed) ∧
      countSolutions board1 2 = some 1 ∧
      puzzleFromSolutionWithUniqueW (fun _ => 0) (fun i => i) fixture 78 1200 = some puzzle ∧
      (toRemoveW 78 ≤ removed → puzzle = board1 ∧ countSolutions puzzle 2 = some 1) :=
  ⟨fixture_is9x9, fixture_eachOnce,
    workerReducer_unique_when_quota_kept (fun _ => 0) (fun i => i) fixture 78 1200 fixture_is9x9
      fixture_eachOnce⟩

end Sudoku
